import Mathlib

/-!
Verification model of the BidLinkTracker duplicate-detection and
synchronization core.

The definitions below are a shallow embedding of the TypeScript/JavaScript
source of the repository:

- src/src/utils/duplicateChecker.ts : URL normalization, equivalence, and
  the bulk duplicate grouper (normalizeUrl, areUrlsDuplicate, findDuplicates);
- src/src/utils (dateUtils) : tab-name range parsing (parseTabRange, parseDate);
- src/server.js and src/api/sheets.ts : the getJobUrlsFromTabs fetch
  orchestrator and the batchUpdateFeedback write orchestrator;
- src/src/components/Bidder/JobLinkInput.tsx : the single-slot read cache.

JavaScript strings are modelled as Lean Strings, with the handful of
JavaScript string primitives the source uses (trim, toLowerCase, includes,
split, endsWith-one-slash stripping) re-implemented over lists of
characters.  The WHATWG "new URL" parser used by normalizeUrl is a platform
component, not repository code; it is modelled here for the scheme://host
URL shapes the application handles: percent-encoding canonicalization, dot
segment removal, scheme-relative forms without "//" and IDN host mapping
are not modelled.  Fallible collaborators (the spreadsheet read and write
endpoints) are modelled as explicitly passed functions returning Except,
and a thrown JavaScript exception is an Except.error value.
-/

namespace BidLink

/-! JavaScript string primitive models. -/

/-- White space as recognised by the model of the JavaScript trim
(space, tab, line feed, carriage return). -/
def isSpaceChar (c : Char) : Bool :=
  c.toNat = 32 || c.toNat = 9 || c.toNat = 10 || c.toNat = 13

/-- Drop leading and trailing white space from a character list. -/
def trimChars (l : List Char) : List Char :=
  ((l.dropWhile isSpaceChar).reverse.dropWhile isSpaceChar).reverse

/-- Model of the JavaScript String.prototype.trim. -/
def jsTrim (s : String) : String := String.mk (trimChars s.data)

/-- Model of the JavaScript String.prototype.toLowerCase on ASCII data,
using the core Char.toLower on each character. -/
def jsToLower (s : String) : String := String.mk (s.data.map Char.toLower)

/-- Model of the JavaScript String.prototype.includes: the pattern occurs
as a contiguous substring. -/
def strIncludes (s pat : String) : Bool := decide (pat.data <:+: s.data)

/-- Split a character list at every occurrence of the separator character,
keeping empty segments, as the JavaScript String.prototype.split does. -/
def splitOnChar (sep : Char) (l : List Char) : List (List Char) :=
  l.foldr
    (fun c acc =>
      match acc with
      | [] => [[c]]
      | cur :: rest => if c = sep then [] :: cur :: rest else (c :: cur) :: rest)
    [[]]

/-- Model of the JavaScript String.prototype.split with a one-character
separator. -/
def jsSplit (sep : Char) (s : String) : List String :=
  (splitOnChar sep s.data).map String.mk

/-- Remove one trailing slash character if present (the replace of the
regular expression slash-dollar used by the normalizeUrl fallback). -/
def stripSlashChars (l : List Char) : List Char :=
  if l.getLast? = some '/' then l.dropLast else l

/-! URL object model.

The source calls new URL(url.trim()) and reads protocol, host, pathname
and search from the result.  URLObj holds those components: scheme and
host are stored lowercased exactly as the platform parser reports them,
while pathname and query keep the original character case. -/

structure URLObj where
  scheme : String
  host : String
  pathname : String
  query : String
  deriving Repr, DecidableEq

/-- Scheme characters after the first: ASCII letters, digits, plus,
minus, dot (on already lowercased input). -/
def schemeRestChar (c : Char) : Bool :=
  (97 ≤ c.toNat && c.toNat ≤ 122) || (48 ≤ c.toNat && c.toNat ≤ 57)
    || c.toNat = 43 || c.toNat = 45 || c.toNat = 46

/-- Characters allowed to continue a host: everything up to a slash,
question mark or hash. -/
def hostChar (c : Char) : Bool :=
  !(c.toNat = 47) && !(c.toNat = 63) && !(c.toNat = 35)

/-- Characters allowed in the path: everything up to a question mark or
hash. -/
def pathChar (c : Char) : Bool := !(c.toNat = 63) && !(c.toNat = 35)

/-- Shape analysis of a candidate URL: performed on the lowercased
character list, it finds the scheme length, host length, path length, and
the query length (or none when there is no question mark).  Returns none
when the input is not an accepted scheme://host form: no leading ASCII
letter, no colon-slash-slash after the scheme, or an empty host or a host
containing white space. -/
def parseShape (low : List Char) : Option (Nat × Nat × Nat × Option Nat) :=
  match low with
  | [] => none
  | c :: _ =>
    if 97 ≤ c.toNat && c.toNat ≤ 122 then
      let schemeLen := (low.takeWhile schemeRestChar).length
      match low.drop schemeLen with
      | ':' :: '/' :: '/' :: afterSlashes =>
        let hostL := afterSlashes.takeWhile hostChar
        if hostL.length = 0 || hostL.any isSpaceChar then none
        else
          let afterHost := afterSlashes.drop hostL.length
          let pathLen := (afterHost.takeWhile pathChar).length
          match afterHost.drop pathLen with
          | '?' :: afterQuestion => some (schemeLen, hostL.length, pathLen,
              some (afterQuestion.takeWhile (fun c => !(c.toNat = 35))).length)
          | _ => some (schemeLen, hostL.length, pathLen, none)
      | _ => none
    else none

/-- Build the URL object from the shape: scheme and host are taken from
the lowercased list (the platform parser lowercases them), the path and
query keep the original characters.  An empty path is reported as a single
slash. -/
def buildURL (low cs : List Char) (shape : Nat × Nat × Nat × Option Nat) : URLObj :=
  let (schemeLen, hostLen, pathLen, queryLen) := shape
  let pathCs := (cs.drop (schemeLen + 3 + hostLen)).take pathLen
  { scheme := String.mk (low.take schemeLen)
    host := String.mk ((low.drop (schemeLen + 3)).take hostLen)
    pathname := if pathCs = [] then "/" else String.mk pathCs
    query := match queryLen with
      | none => ""
      | some ql => String.mk ((cs.drop (schemeLen + 3 + hostLen + pathLen + 1)).take ql) }

/-- Parse a trimmed character list as a URL. -/
def parseCore (cs : List Char) : Option URLObj :=
  (parseShape (cs.map Char.toLower)).map (buildURL (cs.map Char.toLower) cs)

/-- Model of new URL(s.trim()): the constructor trims the input and
returns a structured URL or throws (none). -/
def parseURL (s : String) : Option URLObj := parseCore (jsTrim s).data

/-! Query parameter model (URLSearchParams). -/

/-- Parse a raw query string into its key and value pairs: split on
ampersands, skip empty segments, split each segment at its first equals
sign.  Percent decoding is not modelled; keys and values are kept
verbatim. -/
def parseQuery (q : String) : List (String × String) :=
  ((splitOnChar '&' q.data).filter (fun seg => !seg.isEmpty)).map fun seg =>
    (String.mk (seg.takeWhile (fun c => !(c = '='))),
     match seg.dropWhile (fun c => !(c = '=')) with
     | [] => ""
     | _ :: v => String.mk v)

/-- Character data of the serialized query string: each pair joined with
an equals sign, the pairs separated by ampersands. -/
def joinParamChars : List (String × String) → List Char
  | [] => []
  | [kv] => kv.1.data ++ '=' :: kv.2.data
  | kv :: rest => kv.1.data ++ '=' :: kv.2.data ++ '&' :: joinParamChars rest

/-- Serialize key and value pairs back to a query string, joining each
pair with an equals sign and the pairs with ampersands, as
URLSearchParams.toString does (modulo percent encoding, which is not
modelled). -/
def joinParams (ps : List (String × String)) : String :=
  String.mk (joinParamChars ps)

/-- Important query parameters that identify the job, exactly as listed in
the source (note the mixed-case jobId and positionId entries, which can
never equal a lowercased key). -/
def importantParams : List String :=
  ["jk", "id", "jobId", "job_id", "positionId", "position_id", "req", "reqid"]

/-- Tracking and analytics parameters to remove, exactly as listed in the
source. -/
def trackingParams : List String :=
  ["utm_source", "utm_medium", "utm_campaign", "utm_term", "utm_content",
   "ref", "source", "fbclid", "gclid", "msclkid", "_ga", "_gid"]

/-- Keep decision for one query parameter: its lowercased key is in the
important list, or it is not in the tracking list and its value is
non-empty with non-empty trim. -/
def keepParam (kv : String × String) : Bool :=
  importantParams.contains (jsToLower kv.1) ||
    (!(trackingParams.contains (jsToLower kv.1)) && !(kv.2 = "") && !(jsTrim kv.2 = ""))

/-- Query parameter filter of normalizeUrl. -/
def filterParams (ps : List (String × String)) : List (String × String) :=
  ps.filter keepParam

/-- Strip a single trailing slash from the pathname when the pathname is
longer than one character. -/
def stripPathSlash (p : String) : String :=
  if p.data.getLast? = some '/' && decide (1 < p.data.length)
  then String.mk p.data.dropLast else p

/-- Reassembly of a successfully parsed URL: slash-stripped path, filtered
query parameters, scheme://host/path with an optional question mark and
query, the whole string lowercased. -/
def normalizeParsed (u : URLObj) : String :=
  let pathname := stripPathSlash u.pathname
  let qs := joinParams (filterParams (parseQuery u.query))
  jsToLower (u.scheme ++ ":" ++ "//" ++ u.host ++ pathname ++
    (if qs = "" then "" else "?" ++ qs))

/-- Fallback when URL parsing fails: trim, lowercase, strip one trailing
slash. -/
def fallbackNormalize (s : String) : String :=
  String.mk (stripSlashChars (jsToLower (jsTrim s)).data)

/-- Model of normalizeUrl: empty input normalizes to the empty string;
otherwise parse and reassemble, or fall back to near-literal string
normalization. -/
def normalizeUrl (url : String) : String :=
  if url = "" then ""
  else
    match parseURL url with
    | some u => normalizeParsed u
    | none => fallbackNormalize url

/-- Model of areUrlsDuplicate: two URLs are duplicates when they
normalize to the same string. -/
def areUrlsDuplicate (url1 url2 : String) : Bool :=
  normalizeUrl url1 = normalizeUrl url2

/-- Invariant of every URL object produced by the parser: a non-empty
lowercase scheme starting with a letter, a non-empty lowercase host free
of separators and white space, a pathname starting with a slash and free
of query and fragment delimiters, and a query free of the fragment
delimiter. -/
def wellFormedURL (u : URLObj) : Bool :=
  (!u.scheme.data.isEmpty)
    && (97 ≤ (u.scheme.data.headD 'a').toNat && (u.scheme.data.headD 'a').toNat ≤ 122)
    && u.scheme.data.all schemeRestChar
    && u.scheme.data.all (fun c => Char.toLower c = c)
    && (!u.host.data.isEmpty)
    && u.host.data.all hostChar
    && (!u.host.data.any isSpaceChar)
    && u.host.data.all (fun c => Char.toLower c = c)
    && (!u.pathname.data.isEmpty)
    && (u.pathname.data.headD ' ' = '/')
    && u.pathname.data.all pathChar
    && u.query.data.all (fun c => !(c.toNat = 35))

/-! Tab range parsing (dateUtils).

The source parses a tab name MM/DD[/YYYY]-MM/DD[/YYYY] with date-fns
parse against the pattern MM/dd/yyyy.  Dates are modelled as
year-month-day triples; the getTime comparison of the source is modelled
by a strictly monotone numeric key, which preserves the sign and
zero-ness of every timestamp difference between valid dates. -/

structure DateYMD where
  year : Nat
  month : Nat
  day : Nat
  deriving Repr, DecidableEq

/-- Monotone numeric key standing in for Date.prototype.getTime. -/
def DateYMD.time (d : DateYMD) : Nat := d.year * 10000 + d.month * 100 + d.day

/-- Gregorian leap year test. -/
def isLeapYear (y : Nat) : Bool :=
  y % 4 = 0 && (!(y % 100 = 0) || y % 400 = 0)

/-- Number of days in a month. -/
def daysInMonth (y m : Nat) : Nat :=
  if m = 2 then (if isLeapYear y then 29 else 28)
  else if m = 4 || m = 6 || m = 9 || m = 11 then 30
  else 31

/-- Decimal digit test. -/
def isDigitChar (c : Char) : Bool := 48 ≤ c.toNat && c.toNat ≤ 57

/-- Numeric value of a digit string. -/
def digitsToNat (l : List Char) : Nat :=
  l.foldl (fun a c => a * 10 + (c.toNat - 48)) 0

/-- Model of parseDate (date-fns parse with pattern MM/dd/yyyy): three
slash-separated numeric fields, the month and day fields one or two digits
and the year field at most four, with calendar-valid month and day.
Returns none for an invalid date. -/
def parseDateMDY (s : String) : Option DateYMD :=
  match jsSplit '/' s with
  | [ms, ds, ys] =>
    if ms.data.all isDigitChar && ds.data.all isDigitChar && ys.data.all isDigitChar
        && !ms.data.isEmpty && decide (ms.data.length ≤ 2)
        && !ds.data.isEmpty && decide (ds.data.length ≤ 2)
        && !ys.data.isEmpty && decide (ys.data.length ≤ 4) then
      let m := digitsToNat ms.data
      let d := digitsToNat ds.data
      let y := digitsToNat ys.data
      if 1 ≤ m && m ≤ 12 && 1 ≤ d && d ≤ daysInMonth y m then
        some ⟨y, m, d⟩
      else none
    else none
  | _ => none

/-- Parsed tab range: start and end dates of the weekly window. -/
structure TabRange where
  startDate : DateYMD
  endDate : DateYMD
  deriving Repr, DecidableEq

/-- True when the string ends with at least four decimal digits (the
regular expression digit-digit-digit-digit-dollar of the source). -/
def endsWith4Digits (s : String) : Bool :=
  decide (4 ≤ s.data.length) && (s.data.drop (s.data.length - 4)).all isDigitChar

/-- Model of parseTabRange: split the tab name on every dash and require
exactly two parts; trim each part and append a slash and the current year
when a part does not end in four digits; parse both as MM/dd/yyyy.  The
ambient current year of the source (new Date().getFullYear()) is passed
explicitly. -/
def parseTabRange (currentYear : Nat) (tabName : String) : Option TabRange :=
  match jsSplit '-' tabName with
  | [p0, p1] =>
    let s0 := jsTrim p0
    let s1 := jsTrim p1
    let s0 := if endsWith4Digits s0 then s0 else s0 ++ "/" ++ toString currentYear
    let s1 := if endsWith4Digits s1 then s1 else s1 ++ "/" ++ toString currentYear
    match parseDateMDY s0, parseDateMDY s1 with
    | some a, some b => some ⟨a, b⟩
    | _, _ => none
  | _ => none

/-! Duplicate grouper (findDuplicates). -/

/-- One occurrence of a URL in one spreadsheet partition, as produced by
the fetch orchestrator. -/
structure JobEntry where
  url : String
  tabName : String
  rowIndex : Nat
  position : String
  date : String
  no : String
  companyName : String
  sourceColumn : String
  deriving Repr, DecidableEq

/-- The record findDuplicates stores in its buckets (the source pushes
url, tabName, rowIndex, position, date, no, isDuplicate). -/
structure DuplicateInfo where
  url : String
  tabName : String
  rowIndex : Nat
  position : String
  date : String
  no : String
  isDuplicate : Bool
  deriving Repr, DecidableEq

/-- Projection from a fetched entry to the bucket record, with the
duplicate mark initially false. -/
def toDupInfo (e : JobEntry) : DuplicateInfo :=
  { url := e.url, tabName := e.tabName, rowIndex := e.rowIndex,
    position := e.position, date := e.date, no := e.no, isDuplicate := false }

/-- Append a value to the bucket of a key in an insertion-ordered
association list, creating the bucket at the end on first occurrence, as
a JavaScript Map does. -/
def addToUrlMap (m : List (String × List DuplicateInfo)) (k : String)
    (v : DuplicateInfo) : List (String × List DuplicateInfo) :=
  match m with
  | [] => [(k, [v])]
  | (k', vs) :: rest =>
    if k' = k then (k', vs ++ [v]) :: rest else (k', vs) :: addToUrlMap rest k v

/-- First phase of findDuplicates: bucket the entries by normalized URL in
encounter order, discarding entries whose normalized key is empty. -/
def buildUrlMap (entries : List JobEntry) : List (String × List DuplicateInfo) :=
  entries.foldl
    (fun m e =>
      let n := normalizeUrl e.url
      if n = "" then m else addToUrlMap m n (toDupInfo e))
    []

/-- The sort comparator of findDuplicates as a signed integer: when both
tab names parse, the start date difference when non-zero, otherwise the
row index difference. -/
def dupCmp (currentYear : Nat) (a b : DuplicateInfo) : Int :=
  match parseTabRange currentYear a.tabName, parseTabRange currentYear b.tabName with
  | some ta, some tb =>
    let dateDiff : Int := (ta.startDate.time : Int) - (tb.startDate.time : Int)
    if dateDiff ≠ 0 then dateDiff
    else (a.rowIndex : Int) - (b.rowIndex : Int)
  | _, _ => (a.rowIndex : Int) - (b.rowIndex : Int)

/-- Insert x after every element y with gt y x false: combined with a
left fold this yields the stable sort semantics of Array.prototype.sort
for a consistent comparator. -/
def insertStable {α : Type} (gt : α → α → Bool) (x : α) : List α → List α
  | [] => [x]
  | y :: ys => if gt y x then x :: y :: ys else y :: insertStable gt x ys

/-- Stable sort model of Array.prototype.sort. -/
def sortStable {α : Type} (gt : α → α → Bool) (l : List α) : List α :=
  l.foldl (fun acc x => insertStable gt x acc) []

/-- Model of findDuplicates: group entries by normalized URL, and for
each bucket with at least two entries, sort it stably by the comparator
and mark every entry after the first as a duplicate.  The returned
insertion-ordered association list models the JavaScript Map result. -/
def findDuplicates (currentYear : Nat) (entries : List JobEntry) :
    List (String × List DuplicateInfo) :=
  (buildUrlMap entries).filterMap fun kv =>
    if 1 < kv.2.length then
      let sorted := sortStable (fun a b => 0 < dupCmp currentYear a b) kv.2
      some (kv.1, sorted.enum.map fun ie => { ie.2 with isDuplicate := 0 < ie.1 })
    else none

/-! Fetch orchestrator (the getJobUrlsFromTabs action of server.js and
api/sheets.ts).

The spreadsheet read collaborator is a function from a tab name to either
the raw rows of the tab (each row a list of cell strings, column A at
index 0) or a thrown error. -/

/-- Read a cell of a row as the source does: a missing cell is the empty
string, a present cell is trimmed (row[i] && row[i].trim() or empty). -/
def cellTrim (row : List String) (i : Nat) : String := jsTrim (row.getD i "")

/-- Per-row extraction: skip empty rows; push a PRIMARY entry (sourceColumn
F) when the column F URL is non-empty, and additionally a SECONDARY entry
(sourceColumn G) when the column G URL is non-empty and textually different
from the column F URL.  The F entry is pushed before the G entry. -/
def extractRowUrls (tabName : String) (rowIndex : Nat) (row : List String) :
    List JobEntry :=
  if row.isEmpty then []
  else
    let jobUrl := cellTrim row 5
    let appliedUrl := cellTrim row 6
    let position := cellTrim row 4
    let companyName := cellTrim row 3
    let date := cellTrim row 0
    let no := cellTrim row 1
    (if !(jobUrl = "") then
      [{ url := jobUrl, tabName := tabName, rowIndex := rowIndex,
         position := position, date := date, no := no,
         companyName := companyName, sourceColumn := "F" }]
     else []) ++
    (if !(appliedUrl = "") && !(appliedUrl = jobUrl) then
      [{ url := appliedUrl, tabName := tabName, rowIndex := rowIndex,
         position := position, date := date, no := no,
         companyName := companyName, sourceColumn := "G" }]
     else [])

/-- Per-tab extraction: iterate the data rows, skipping the header row at
index 0; the data row at zero-based index i gets spreadsheet row index
i + 1. -/
def extractTabUrls (tabName : String) (data : List (List String)) :
    List JobEntry :=
  match data with
  | [] => []
  | _header :: rows =>
    (rows.enum.map fun ir => extractRowUrls tabName (ir.1 + 2) ir.2).flatten

/-- One tab promise of the fetch fan-out: the whole body is wrapped in a
try/catch that turns any thrown read error into an empty entry list. -/
def fetchTab (readRows : String → Except String (List (List String)))
    (tabName : String) : List JobEntry :=
  match readRows tabName with
  | Except.ok data => extractTabUrls tabName data
  | Except.error _ => []

/-- Aggregation of the parallel per-tab fetches: the per-tab entry lists
concatenated in tab order (Promise.all preserves order). -/
def getJobUrlsFromTabs (readRows : String → Except String (List (List String)))
    (tabNames : List String) : List JobEntry :=
  (tabNames.map (fetchTab readRows)).flatten

/-- The handler around the aggregation: since every per-tab failure is
caught inside its promise, the aggregate response is always a success
value; an escaped exception would appear here as an Except.error. -/
def getJobUrlsFromTabsHandler
    (readRows : String → Except String (List (List String)))
    (tabNames : List String) : Except String (List JobEntry) :=
  Except.ok (getJobUrlsFromTabs readRows tabNames)

/-! Read cache (JobLinkInput.tsx cacheRef and loadExistingData). -/

/-- The cached URL records stored by loadExistingData (the mapped
formattedUrls of the source). -/
structure CachedUrl where
  url : String
  tabName : String
  position : String
  sourceColumn : String
  rowIndex : Nat
  date : String
  no : String
  deriving Repr, DecidableEq

/-- The single cache slot held in cacheRef. -/
structure CacheSlot where
  spreadsheetId : String
  profileName : String
  last4Tabs : List String
  urls : List CachedUrl
  timestamp : Int
  deriving Repr, DecidableEq

/-- Cache time-to-live: five minutes in milliseconds. -/
def CACHE_TTL : Int := 5 * 60 * 1000

/-- The cache-hit check of loadExistingData: with no force refresh, a
stored slot is used exactly when its spreadsheet id and profile name equal
the requested ones and its age is below the time-to-live. -/
def cacheLookup (slot : Option CacheSlot) (forceRefresh : Bool)
    (spreadsheetId profileName : String) (now : Int) : Option (List CachedUrl) :=
  if forceRefresh then none
  else
    match slot with
    | none => none
    | some c =>
      if c.spreadsheetId = spreadsheetId && c.profileName = profileName
          && decide (now - c.timestamp < CACHE_TTL)
      then some c.urls
      else none

/-- One loadExistingData cycle: on a cache hit return the cached URLs and
leave the slot unchanged; on a miss run the fetch (supplied as the already
aggregated formatted URLs and the tab list) and replace the slot with a
fresh entry stamped at the current time. -/
def loadExistingData (slot : Option CacheSlot) (forceRefresh : Bool)
    (spreadsheetId profileName : String) (now : Int)
    (fetched : List CachedUrl × List String) :
    Option CacheSlot × List CachedUrl :=
  match cacheLookup slot forceRefresh spreadsheetId profileName now with
  | some urls => (slot, urls)
  | none =>
    (some { spreadsheetId := spreadsheetId, profileName := profileName,
            last4Tabs := fetched.2, urls := fetched.1, timestamp := now },
     fetched.1)

/-! Write orchestrator (the batchUpdateFeedback action of server.js).

The collaborators are: the column I reader (tab name and 1-based row to
the raw feedback cell text), the batch write endpoint, and the single-cell
write endpoint; each write returns unit or a thrown error message.  A
message containing the word protected models the protected-cell
rejection of the storage layer. -/

/-- One intended feedback update as received by the action. -/
structure FeedbackUpdate where
  tabName : String
  rowIndex : Nat
  feedback : String
  sourceColumn : String
  deriving Repr, DecidableEq

/-- The reduced update record kept after the precedence filter (the
source drops sourceColumn when pushing to filteredUpdates). -/
structure PlainUpdate where
  tabName : String
  rowIndex : Nat
  feedback : String
  deriving Repr, DecidableEq

/-- A skipped or failed record: tab name, row index and reason. -/
structure SkipRecord where
  tabName : String
  rowIndex : Nat
  reason : String
  deriving Repr, DecidableEq

/-- Target column of a cell write. -/
inductive Col
  | H
  | I
  deriving Repr, DecidableEq

/-- One cell write request. -/
structure CellWrite where
  tabName : String
  col : Col
  rowIndex : Nat
  value : String
  deriving Repr, DecidableEq

/-- Group the updates by tab name in first-occurrence order, as the
source does with a JavaScript Map. -/
def groupByTab (updates : List FeedbackUpdate) :
    List (String × List FeedbackUpdate) :=
  updates.foldl
    (fun m u =>
      let rec add : List (String × List FeedbackUpdate) →
          List (String × List FeedbackUpdate)
        | [] => [(u.tabName, [u])]
        | (k, vs) :: rest =>
          if k = u.tabName then (k, vs ++ [u]) :: rest else (k, vs) :: add rest
      add m)
    []

/-- Minimum of a list of naturals with default zero (Math.min over the
row indices of a non-empty group). -/
def listMin (l : List Nat) : Nat := l.foldl Nat.min (l.headD 0)

/-- Maximum of a list of naturals (Math.max over the row indices). -/
def listMax (l : List Nat) : Nat := l.foldl Nat.max (l.headD 0)

/-- The existing-feedback pre-read of batchUpdateFeedback, modelled
faithfully to the source including its index arithmetic: for each tab
group, read column I for rows minRow..maxRow into feedbackData, set
rowOffset to minRow - 1, and for each update row take
feedbackData[rowIndex - rowOffset] (out of range reads give the empty
string), trimmed.  The sheetI collaborator gives the raw column I text of
a row. -/
def buildFeedbackChecks (sheetI : String → Nat → String)
    (updates : List FeedbackUpdate) : List ((String × Nat) × String) :=
  (groupByTab updates).foldl
    (fun acc tg =>
      let rowIndices := tg.2.map (·.rowIndex)
      let minRow := listMin rowIndices
      let maxRow := listMax rowIndices
      let feedbackData := (List.range (maxRow + 1 - minRow)).map
        (fun j => sheetI tg.1 (minRow + j))
      let rowOffset := minRow - 1
      acc ++ rowIndices.map fun rowIndex =>
        ((tg.1, rowIndex), jsTrim (feedbackData.getD (rowIndex - rowOffset) "")))
    []

/-- The precedence filter: an update is skipped when it is applied-url
flavoured (sourceColumn G, or its feedback text contains the applied-url
marker) and the existing feedback recorded for its key contains the
job-url marker; all other updates survive, reduced to tab, row and
feedback text. -/
def filterUpdatesPhase (checks : List ((String × Nat) × String))
    (updates : List FeedbackUpdate) : List PlainUpdate × List SkipRecord :=
  updates.foldl
    (fun acc u =>
      let existingFeedback := ((checks.lookup (u.tabName, u.rowIndex)).getD "")
      let isAppliedUrl := u.sourceColumn = "G" || strIncludes u.feedback "- Applied Url"
      let hasJobUrlFeedback := strIncludes existingFeedback "- Job Url"
      if isAppliedUrl && hasJobUrlFeedback then
        (acc.1, acc.2 ++ [{ tabName := u.tabName, rowIndex := u.rowIndex,
                            reason := "Already marked as duplicate with Job Url" }])
      else
        (acc.1 ++ [{ tabName := u.tabName, rowIndex := u.rowIndex,
                     feedback := u.feedback }], acc.2))
    ([], [])

/-- The batch write list: for every surviving update, clear column H to
FALSE and set column I to the feedback text. -/
def buildValueUpdates (filtered : List PlainUpdate) : List CellWrite :=
  filtered.foldl
    (fun acc u =>
      acc ++ [{ tabName := u.tabName, col := Col.H, rowIndex := u.rowIndex,
                value := "FALSE" },
              { tabName := u.tabName, col := Col.I, rowIndex := u.rowIndex,
                value := u.feedback }])
    []

/-- The reason recorded by the per-update catch-all handler of the
fallback loop (error.message or Unknown error). -/
def jsErrReason (m : String) : String := if m = "" then "Unknown error" else m

/-- The column H write of an update. -/
def hCellOf (u : PlainUpdate) : CellWrite :=
  { tabName := u.tabName, col := Col.H, rowIndex := u.rowIndex, value := "FALSE" }

/-- The column I write of an update. -/
def iCellOf (u : PlainUpdate) : CellWrite :=
  { tabName := u.tabName, col := Col.I, rowIndex := u.rowIndex, value := u.feedback }

/-- Result of the cell-by-cell fallback loop: the successful update keys,
the failed records, and the trace of cell writes that the storage layer
accepted, in execution order. -/
structure FallbackResult where
  successful : List String
  failed : List SkipRecord
  applied : List CellWrite
  deriving Repr, DecidableEq

/-- Contribution of one update to the fallback loop, mirroring the nested
try/catch structure of the source: write column H first; a protection
rejection records a failure naming column H and skips the row; any other
thrown error is caught by the per-update handler and recorded with its
message; on success write column I with the analogous classification; when
both writes succeed the update key is recorded as successful. -/
def updateStep (writeCell : CellWrite → Except String Unit) (u : PlainUpdate) :
    FallbackResult :=
  match writeCell (hCellOf u) with
  | Except.error m =>
    if strIncludes m "protected" then
      { successful := [], applied := [],
        failed := [{ tabName := u.tabName, rowIndex := u.rowIndex,
                     reason := "Column H (Approved) is protected" }] }
    else
      { successful := [], applied := [],
        failed := [{ tabName := u.tabName, rowIndex := u.rowIndex,
                     reason := jsErrReason m }] }
  | Except.ok _ =>
    match writeCell (iCellOf u) with
    | Except.error m =>
      if strIncludes m "protected" then
        { successful := [], applied := [hCellOf u],
          failed := [{ tabName := u.tabName, rowIndex := u.rowIndex,
                       reason := "Column I (Feedback) is protected" }] }
      else
        { successful := [], applied := [hCellOf u],
          failed := [{ tabName := u.tabName, rowIndex := u.rowIndex,
                       reason := jsErrReason m }] }
    | Except.ok _ =>
      { successful := [u.tabName ++ "!" ++ toString u.rowIndex],
        failed := [], applied := [hCellOf u, iCellOf u] }

/-- The sequential fallback loop over the surviving updates. -/
def runFallback (writeCell : CellWrite → Except String Unit)
    (filtered : List PlainUpdate) : FallbackResult :=
  filtered.foldl
    (fun acc u =>
      let r := updateStep writeCell u
      { successful := acc.successful ++ r.successful,
        failed := acc.failed ++ r.failed,
        applied := acc.applied ++ r.applied })
    { successful := [], failed := [], applied := [] }

/-- Outcome of one whole write cycle as reported to the caller. -/
structure WriteOutcome where
  successful : List String
  failed : List SkipRecord
  skipped : List SkipRecord
  deriving Repr, DecidableEq

/-- The batchUpdateFeedback action: build the existing-feedback checks,
apply the precedence filter, submit the surviving updates as one batch
write; on success report every surviving update as updated; when the
batch write throws a message containing protected, run the cell-by-cell
fallback; any other batch error is re-thrown. -/
def batchUpdateFeedbackAction (sheetI : String → Nat → String)
    (batchWrite : List CellWrite → Except String Unit)
    (writeCell : CellWrite → Except String Unit)
    (updates : List FeedbackUpdate) : Except String WriteOutcome :=
  match batchWrite (buildValueUpdates
      (filterUpdatesPhase (buildFeedbackChecks sheetI updates) updates).1) with
  | Except.ok _ =>
    Except.ok
      { successful := (filterUpdatesPhase (buildFeedbackChecks sheetI updates)
          updates).1.map (fun u => u.tabName ++ "!" ++ toString u.rowIndex),
        failed := [],
        skipped := (filterUpdatesPhase (buildFeedbackChecks sheetI updates) updates).2 }
  | Except.error m =>
    if strIncludes m "protected" then
      Except.ok
        { successful := (runFallback writeCell
            (filterUpdatesPhase (buildFeedbackChecks sheetI updates) updates).1).successful,
          failed := (runFallback writeCell
            (filterUpdatesPhase (buildFeedbackChecks sheetI updates) updates).1).failed,
          skipped := (filterUpdatesPhase (buildFeedbackChecks sheetI updates) updates).2 }
    else Except.error m


/-! Concrete scenario data used by the claim witnesses and
counterexamples. -/

/-- Tab name of the single-update write scenario. -/
def c1Tab : String := "01/01/2024-01/07/2024"

/-- Column I contents of the write scenario sheet: row 5 of the tab
already carries a job-url duplicate annotation. -/
def c1SheetI : String → Nat → String := fun t r =>
  if t = c1Tab && r = 5
  then "Duplicated of Sheet - 01/01 in [X] Tab- No.1 - Dev - Job Url"
  else ""

/-- The incoming secondary-sourced update targeting row 5. -/
def c1Update : FeedbackUpdate :=
  { tabName := c1Tab, rowIndex := 5,
    feedback := "Duplicated of Sheet - 01/08 in [Y] Tab- No.2 - Dev - Applied Url",
    sourceColumn := "G" }

/-- A sheet with no existing feedback anywhere. -/
def emptySheetI : String → Nat → String := fun _ _ => ""

/-- A batch write endpoint that always rejects with a protected-cell
message. -/
def protectedBatchWrite : List CellWrite → Except String Unit :=
  fun _ => Except.error "some cells are write protected"

/-- A cell write endpoint that throws a non-protection error on the
column H cell of row 5 of tab t and accepts everything else. -/
def quotaWriteCell : CellWrite → Except String Unit := fun w =>
  if w = hCellOf { tabName := "t", rowIndex := 5, feedback := "f1" }
  then Except.error "quota exceeded"
  else Except.ok ()

/-- Two primary-sourced updates for the fallback scenario. -/
def c2Updates : List FeedbackUpdate :=
  [{ tabName := "t", rowIndex := 5, feedback := "f1", sourceColumn := "F" },
   { tabName := "t", rowIndex := 6, feedback := "f2", sourceColumn := "F" }]

/-- Four partitions for the fetch scenario. -/
def c3Tabs : List String := ["T1", "T2", "T3", "T4"]

/-- A read collaborator for which partition T2 throws and every other
partition holds one data row with one primary URL. -/
def c3Read : String → Except String (List (List String)) := fun t =>
  if t = "T2" then Except.error "read failure"
  else Except.ok [[], ["01/02/2024", "1", "", "Acme", "Dev", "https://ex.com/" ++ t]]

/-- Two entries sharing a URL, for the empty-key witness. -/
def c4EntryA : JobEntry :=
  { url := "https://ex.com/a", tabName := "01/01/2024-01/07/2024", rowIndex := 2,
    position := "Dev", date := "", no := "", companyName := "", sourceColumn := "F" }

/-- Second occurrence of the same URL one row below. -/
def c4EntryB : JobEntry :=
  { url := "https://ex.com/a", tabName := "01/01/2024-01/07/2024", rowIndex := 3,
    position := "Dev", date := "", no := "", companyName := "", sourceColumn := "F" }

/-- Scenario entry of the Jan 1 partition, row 5. -/
def c6Jan1 : JobEntry :=
  { url := "https://jobs.example.com/post/123", tabName := "01/01/2024-01/07/2024",
    rowIndex := 5, position := "Dev", date := "01/02/2024", no := "1",
    companyName := "Acme", sourceColumn := "F" }

/-- Scenario entry of the Jan 8 partition, row 3. -/
def c6Jan8 : JobEntry :=
  { url := "https://jobs.example.com/post/123", tabName := "01/08/2024-01/14/2024",
    rowIndex := 3, position := "Dev", date := "01/09/2024", no := "2",
    companyName := "Acme", sourceColumn := "F" }

/-- Scenario entry of the Jan 15 partition, row 9. -/
def c6Jan15 : JobEntry :=
  { url := "https://jobs.example.com/post/123", tabName := "01/15/2024-01/21/2024",
    rowIndex := 9, position := "Dev", date := "01/16/2024", no := "3",
    companyName := "Acme", sourceColumn := "F" }

/-- The expected duplicate map for the three-entry scenario: one group,
Jan 1 first and unmarked, the two later entries marked. -/
def c6Expected : List (String × List DuplicateInfo) :=
  [("https://jobs.example.com/post/123",
    [{ toDupInfo c6Jan1 with isDuplicate := false },
     { toDupInfo c6Jan8 with isDuplicate := true },
     { toDupInfo c6Jan15 with isDuplicate := true }])]

/-- A cache slot for the cache scenario: source s1, scope p1, stamped at
time zero. -/
def c7Slot : CacheSlot :=
  { spreadsheetId := "s1", profileName := "p1", last4Tabs := ["T1"],
    urls := [{ url := "https://ex.com/1", tabName := "T1", position := "Dev",
               sourceColumn := "F", rowIndex := 2, date := "", no := "" }],
    timestamp := 0 }

/-- A cell write endpoint that rejects every column I write as protected
and accepts every column H write. -/
def c9WriteCell : CellWrite → Except String Unit := fun w =>
  match w.col with
  | Col.I => Except.error "this cell is write protected"
  | Col.H => Except.ok ()

/-- The update of the half-written-row witness. -/
def c9Update : PlainUpdate := { tabName := "t", rowIndex := 5, feedback := "fb" }

/-- Tab of the same-row two-column scenario. -/
def c10Tab : String := "01/01/2024-01/07/2024"

/-- A row whose job URL (column F) and applied URL (column G) are
textually different but normalize to the same key. -/
def c10Row : List String :=
  ["01/05/2024", "7", "", "Acme", "Dev",
   "https://ex.com/job/123", "https://EX.com/job/123/"]

/-- The primary entry extracted from the scenario row. -/
def c10FEntry : JobEntry :=
  { url := "https://ex.com/job/123", tabName := c10Tab, rowIndex := 2,
    position := "Dev", date := "01/05/2024", no := "7", companyName := "Acme",
    sourceColumn := "F" }

/-- The secondary entry extracted from the scenario row. -/
def c10GEntry : JobEntry :=
  { url := "https://EX.com/job/123/", tabName := c10Tab, rowIndex := 2,
    position := "Dev", date := "01/05/2024", no := "7", companyName := "Acme",
    sourceColumn := "G" }

/-- The expected duplicate map of the scenario: one group with the
column F entry first and only the column G entry marked. -/
def c10Expected : List (String × List DuplicateInfo) :=
  [("https://ex.com/job/123",
    [{ toDupInfo c10FEntry with isDuplicate := false },
     { toDupInfo c10GEntry with isDuplicate := true }])]

end BidLink

namespace BidLink

/-! Helper lemmas about the fallback loop. -/

/-- The fallback fold is a homomorphism from list append: each update
contributes its own step result, independent of the others. -/
theorem runFallback_go (wc : CellWrite → Except String Unit) :
    ∀ (fu : List PlainUpdate) (acc : FallbackResult),
      fu.foldl
        (fun acc u =>
          let r := updateStep wc u
          { successful := acc.successful ++ r.successful,
            failed := acc.failed ++ r.failed,
            applied := acc.applied ++ r.applied }) acc =
      { successful := acc.successful ++ (fu.map fun u => (updateStep wc u).successful).flatten,
        failed := acc.failed ++ (fu.map fun u => (updateStep wc u).failed).flatten,
        applied := acc.applied ++ (fu.map fun u => (updateStep wc u).applied).flatten } := by
  intro fu
  induction fu with
  | nil => intro acc; simp
  | cons u us ih =>
    intro acc
    simp only [List.foldl_cons, List.map_cons, List.flatten_cons]
    rw [ih]
    simp [List.append_assoc]

/-- The fallback loop result, update by update. -/
theorem runFallback_eq (wc : CellWrite → Except String Unit) (fu : List PlainUpdate) :
    runFallback wc fu =
      { successful := (fu.map fun u => (updateStep wc u).successful).flatten,
        failed := (fu.map fun u => (updateStep wc u).failed).flatten,
        applied := (fu.map fun u => (updateStep wc u).applied).flatten } := by
  unfold runFallback
  rw [runFallback_go]
  simp

/-- A failure record naming column I can only come from the column I
branch of a step, whose column H write has already succeeded and been
applied. -/
theorem updateStep_failed_I (wc : CellWrite → Except String Unit)
    (u : PlainUpdate) (tab : String) (row : Nat)
    (h : ({ tabName := tab, rowIndex := row,
            reason := "Column I (Feedback) is protected" } : SkipRecord) ∈
          (updateStep wc u).failed) :
    hCellOf u ∈ (updateStep wc u).applied ∧ u.tabName = tab ∧ u.rowIndex = row := by
  cases hw : wc (hCellOf u) with
  | error m =>
    by_cases hp : strIncludes m "protected" = true
    · have hstep : updateStep wc u =
          { successful := [], applied := [],
            failed := [{ tabName := u.tabName, rowIndex := u.rowIndex,
                         reason := "Column H (Approved) is protected" }] } := by
        simp [updateStep, hw, hp]
      rw [hstep] at h
      have h' := List.mem_singleton.mp h
      injection h' with h1 h2 h3
      exact absurd h3 (by decide)
    · have hstep : updateStep wc u =
          { successful := [], applied := [],
            failed := [{ tabName := u.tabName, rowIndex := u.rowIndex,
                         reason := jsErrReason m }] } := by
        simp [updateStep, hw, hp]
      rw [hstep] at h
      have h' := List.mem_singleton.mp h
      injection h' with h1 h2 h3
      by_cases hm : m = ""
      · rw [jsErrReason, if_pos hm] at h3
        exact absurd h3 (by decide)
      · rw [jsErrReason, if_neg hm] at h3
        rw [← h3] at hp
        exact absurd (by decide) hp
  | ok _ =>
    cases hi : wc (iCellOf u) with
    | error m =>
      by_cases hp : strIncludes m "protected" = true
      · have hstep : updateStep wc u =
            { successful := [], applied := [hCellOf u],
              failed := [{ tabName := u.tabName, rowIndex := u.rowIndex,
                           reason := "Column I (Feedback) is protected" }] } := by
          simp [updateStep, hw, hi, hp]
        rw [hstep] at h ⊢
        have h' := List.mem_singleton.mp h
        injection h' with h1 h2 h3
        exact ⟨List.mem_singleton.mpr rfl, h1.symm, h2.symm⟩
      · have hstep : updateStep wc u =
            { successful := [], applied := [hCellOf u],
              failed := [{ tabName := u.tabName, rowIndex := u.rowIndex,
                           reason := jsErrReason m }] } := by
          simp [updateStep, hw, hi, hp]
        rw [hstep] at h
        have h' := List.mem_singleton.mp h
        injection h' with h1 h2 h3
        by_cases hm : m = ""
        · rw [jsErrReason, if_pos hm] at h3
          exact absurd h3 (by decide)
        · rw [jsErrReason, if_neg hm] at h3
          rw [← h3] at hp
          exact absurd (by decide) hp
    | ok _ =>
      have hstep : updateStep wc u =
          { successful := [u.tabName ++ "!" ++ toString u.rowIndex],
            failed := [], applied := [hCellOf u, iCellOf u] } := by
        simp [updateStep, hw, hi]
      rw [hstep] at h
      exact absurd h (List.not_mem_nil _)

/-- When a step applied the column I write of some update, it also
applied the matching column H write. -/
theorem updateStep_applied_I (wc : CellWrite → Except String Unit)
    (u v : PlainUpdate) (h : iCellOf v ∈ (updateStep wc u).applied) :
    hCellOf v ∈ (updateStep wc u).applied := by
  cases hw : wc (hCellOf u) with
  | error m =>
    by_cases hp : strIncludes m "protected" = true <;>
      simp [updateStep, hw, hp] at h
  | ok _ =>
    cases hi : wc (iCellOf u) with
    | error m =>
      exfalso
      by_cases hp : strIncludes m "protected" = true
      all_goals
        have hstep : (updateStep wc u).applied = [hCellOf u] := by
          simp [updateStep, hw, hi, hp]
        rw [hstep] at h
        have h' := List.mem_singleton.mp h
        have hcol := congrArg CellWrite.col h'
        simp [iCellOf, hCellOf] at hcol
    | ok _ =>
      have hstep : (updateStep wc u).applied = [hCellOf u, iCellOf u] := by
        simp [updateStep, hw, hi]
      rw [hstep] at h ⊢
      rw [List.mem_cons, List.mem_singleton] at h
      rcases h with h | h
      · have hcol := congrArg CellWrite.col h
        simp [iCellOf, hCellOf] at hcol
      · have h1 := congrArg CellWrite.tabName h
        have h2 := congrArg CellWrite.rowIndex h
        simp [iCellOf] at h1 h2
        have hh : hCellOf v = hCellOf u := by simp [hCellOf, h1, h2]
        rw [List.mem_cons]
        exact Or.inl hh

/-- C9: in the fallback path the column H cell of an update is written
before its column I cell, so an update recorded as failed with the reason
naming column I has already had its column H cell set to FALSE; more
generally a column I write is applied only after the matching column H
write. -/
theorem c9_fallback_H_written_before_I_failure
    (wc : CellWrite → Except String Unit) (fu : List PlainUpdate)
    (tab : String) (row : Nat) :
    (({ tabName := tab, rowIndex := row,
        reason := "Column I (Feedback) is protected" } : SkipRecord) ∈
          (runFallback wc fu).failed →
      ({ tabName := tab, col := Col.H, rowIndex := row,
         value := "FALSE" } : CellWrite) ∈ (runFallback wc fu).applied)
    ∧ ∀ v : PlainUpdate, iCellOf v ∈ (runFallback wc fu).applied →
        hCellOf v ∈ (runFallback wc fu).applied := by
  constructor
  · intro h
    rw [runFallback_eq] at h ⊢
    rcases List.mem_flatten.mp h with ⟨l, hl, hmem⟩
    rcases List.mem_map.mp hl with ⟨u, hu, rfl⟩
    obtain ⟨happ, htab, hrow⟩ := updateStep_failed_I wc u tab row hmem
    have hcell :
        ({ tabName := tab, col := Col.H, rowIndex := row,
           value := "FALSE" } : CellWrite) = hCellOf u := by
      simp [hCellOf, htab, hrow]
    rw [hcell]
    exact List.mem_flatten.mpr ⟨(updateStep wc u).applied,
      List.mem_map.mpr ⟨u, hu, rfl⟩, happ⟩
  · intro v h
    rw [runFallback_eq] at h ⊢
    rcases List.mem_flatten.mp h with ⟨l, hl, hmem⟩
    rcases List.mem_map.mp hl with ⟨u, hu, rfl⟩
    exact List.mem_flatten.mpr ⟨(updateStep wc u).applied,
      List.mem_map.mpr ⟨u, hu, rfl⟩, updateStep_applied_I wc u v hmem⟩

/-- C9 witness: with an endpoint that protects column I, the single
update is reported failed for column I while its column H cell has been
cleared. -/
theorem c9_fallback_H_written_before_I_failure_witness :
    (({ tabName := "t", rowIndex := 5,
        reason := "Column I (Feedback) is protected" } : SkipRecord) ∈
          (runFallback c9WriteCell [c9Update]).failed)
    ∧ ({ tabName := "t", col := Col.H, rowIndex := 5,
         value := "FALSE" } : CellWrite) ∈ (runFallback c9WriteCell [c9Update]).applied :=
  ⟨by decide,
   (c9_fallback_H_written_before_I_failure c9WriteCell [c9Update] "t" 5).1 (by decide)⟩

/-- C2 counterexample: with a protected batch rejection followed by a
non-protection error (quota exceeded) on the first update and success on
the second, the write cycle does not abort and does not re-throw: the
error is recorded as a per-update failure and the second update
succeeds. -/
theorem c2_counterexample :
    quotaWriteCell (hCellOf { tabName := "t", rowIndex := 5, feedback := "f1" })
        = Except.error "quota exceeded"
    ∧ strIncludes "quota exceeded" "protected" = false
    ∧ batchUpdateFeedbackAction emptySheetI protectedBatchWrite quotaWriteCell c2Updates =
        Except.ok { successful := ["t!6"],
                    failed := [{ tabName := "t", rowIndex := 5,
                                 reason := "quota exceeded" }],
                    skipped := [] } :=
  ⟨rfl, rfl, rfl⟩

/-- C2 as amended: a non-protection rejection of the initial batch write
is re-thrown; a protection rejection of the batch write enters the
cell-by-cell fallback, which always returns (no exception) and processes
every update independently (append homomorphism); within the fallback, a
protection rejection on a cell is recorded as a per-update failure
naming the column, while a non-protection error on a cell is caught by
the per-update handler and recorded as a failure carrying the error
message, the loop continuing either way. -/
theorem c2_fallback_classification :
    (∀ (sheetI : String → Nat → String)
       (batchWrite : List CellWrite → Except String Unit)
       (writeCell : CellWrite → Except String Unit)
       (updates : List FeedbackUpdate) (m : String),
      batchWrite (buildValueUpdates
          (filterUpdatesPhase (buildFeedbackChecks sheetI updates) updates).1)
        = Except.error m →
      (strIncludes m "protected" = false →
        batchUpdateFeedbackAction sheetI batchWrite writeCell updates
          = Except.error m) ∧
      (strIncludes m "protected" = true →
        batchUpdateFeedbackAction sheetI batchWrite writeCell updates
          = Except.ok
            { successful := (runFallback writeCell
                (filterUpdatesPhase (buildFeedbackChecks sheetI updates) updates).1).successful,
              failed := (runFallback writeCell
                (filterUpdatesPhase (buildFeedbackChecks sheetI updates) updates).1).failed,
              skipped := (filterUpdatesPhase (buildFeedbackChecks sheetI updates) updates).2 }))
    ∧ (∀ (writeCell : CellWrite → Except String Unit) (us vs : List PlainUpdate),
        runFallback writeCell (us ++ vs) =
          { successful := (runFallback writeCell us).successful
              ++ (runFallback writeCell vs).successful,
            failed := (runFallback writeCell us).failed
              ++ (runFallback writeCell vs).failed,
            applied := (runFallback writeCell us).applied
              ++ (runFallback writeCell vs).applied })
    ∧ (∀ (writeCell : CellWrite → Except String Unit) (fu : List PlainUpdate)
         (u : PlainUpdate), u ∈ fu → ∀ m : String,
        (writeCell (hCellOf u) = Except.error m →
          (strIncludes m "protected" = true →
            ({ tabName := u.tabName, rowIndex := u.rowIndex,
               reason := "Column H (Approved) is protected" } : SkipRecord) ∈
                (runFallback writeCell fu).failed) ∧
          (strIncludes m "protected" = false →
            ({ tabName := u.tabName, rowIndex := u.rowIndex,
               reason := jsErrReason m } : SkipRecord) ∈
                (runFallback writeCell fu).failed)) ∧
        (writeCell (hCellOf u) = Except.ok () → writeCell (iCellOf u) = Except.error m →
          (strIncludes m "protected" = true →
            ({ tabName := u.tabName, rowIndex := u.rowIndex,
               reason := "Column I (Feedback) is protected" } : SkipRecord) ∈
                (runFallback writeCell fu).failed) ∧
          (strIncludes m "protected" = false →
            ({ tabName := u.tabName, rowIndex := u.rowIndex,
               reason := jsErrReason m } : SkipRecord) ∈
                (runFallback writeCell fu).failed))) := by
  refine ⟨?_, ?_, ?_⟩
  · intro sheetI batchWrite writeCell updates m hb
    constructor
    · intro hm
      unfold batchUpdateFeedbackAction
      rw [hb]
      simp [hm]
    · intro hm
      unfold batchUpdateFeedbackAction
      rw [hb]
      simp [hm]
  · intro writeCell us vs
    rw [runFallback_eq, runFallback_eq, runFallback_eq]
    simp [List.map_append, List.flatten_append]
  · intro writeCell fu u hu m
    constructor
    · intro hw
      constructor
      · intro hp
        rw [runFallback_eq]
        refine List.mem_flatten.mpr ⟨(updateStep writeCell u).failed,
          List.mem_map.mpr ⟨u, hu, rfl⟩, ?_⟩
        simp [updateStep, hw, hp]
      · intro hp
        rw [runFallback_eq]
        refine List.mem_flatten.mpr ⟨(updateStep writeCell u).failed,
          List.mem_map.mpr ⟨u, hu, rfl⟩, ?_⟩
        simp [updateStep, hw, hp]
    · intro hw hi
      constructor
      · intro hp
        rw [runFallback_eq]
        refine List.mem_flatten.mpr ⟨(updateStep writeCell u).failed,
          List.mem_map.mpr ⟨u, hu, rfl⟩, ?_⟩
        simp [updateStep, hw, hi, hp]
      · intro hp
        rw [runFallback_eq]
        refine List.mem_flatten.mpr ⟨(updateStep writeCell u).failed,
          List.mem_map.mpr ⟨u, hu, rfl⟩, ?_⟩
        simp [updateStep, hw, hi, hp]

/-- C2 amended witness: the protected batch rejection of the scenario
enters the fallback and yields its per-update outcome. -/
theorem c2_fallback_classification_witness :
    (protectedBatchWrite (buildValueUpdates
        (filterUpdatesPhase (buildFeedbackChecks emptySheetI c2Updates) c2Updates).1)
      = Except.error "some cells are write protected")
    ∧ strIncludes "some cells are write protected" "protected" = true
    ∧ batchUpdateFeedbackAction emptySheetI protectedBatchWrite quotaWriteCell c2Updates
        = Except.ok
          { successful := (runFallback quotaWriteCell
              (filterUpdatesPhase (buildFeedbackChecks emptySheetI c2Updates) c2Updates).1).successful,
            failed := (runFallback quotaWriteCell
              (filterUpdatesPhase (buildFeedbackChecks emptySheetI c2Updates) c2Updates).1).failed,
            skipped := (filterUpdatesPhase (buildFeedbackChecks emptySheetI c2Updates) c2Updates).2 } :=
  ⟨rfl, by decide,
   ((c2_fallback_classification.1 emptySheetI protectedBatchWrite quotaWriteCell
      c2Updates "some cells are write protected" rfl).2 (by decide))⟩

/-- C1: evaluation of the precedence filter at the failing input.  The
target cell of the single secondary-sourced update does carry a job-url
duplicate annotation, yet the pre-read maps the update key to the empty
string (the index arithmetic reads one row past the target), so the
update is not skipped and both its cell writes are still built. -/
theorem c1_precedence_filter_misses_target_row :
    strIncludes (c1SheetI c1Tab 5) "- Job Url" = true
    ∧ (c1Update.sourceColumn = "G")
    ∧ buildFeedbackChecks c1SheetI [c1Update] = [((c1Tab, 5), "")]
    ∧ (filterUpdatesPhase (buildFeedbackChecks c1SheetI [c1Update]) [c1Update]).2 = []
    ∧ (filterUpdatesPhase (buildFeedbackChecks c1SheetI [c1Update]) [c1Update]).1
        = [{ tabName := c1Tab, rowIndex := 5, feedback := c1Update.feedback }]
    ∧ buildValueUpdates
        (filterUpdatesPhase (buildFeedbackChecks c1SheetI [c1Update]) [c1Update]).1
        = [{ tabName := c1Tab, col := Col.H, rowIndex := 5, value := "FALSE" },
           { tabName := c1Tab, col := Col.I, rowIndex := 5, value := c1Update.feedback }] := by
  decide

/-- C3: a partition whose read throws contributes zero entries while all
other partitions contribute theirs (replacing the failing read by an
empty read leaves the aggregate unchanged), and no exception escapes the
overall fetch (the handler always returns ok). -/
theorem c3_partition_failure_isolated
    (readRows : String → Except String (List (List String)))
    (tabNames : List String) (t : String) (err : String)
    (h : readRows t = Except.error err) :
    getJobUrlsFromTabs readRows tabNames =
      getJobUrlsFromTabs (fun s => if s = t then Except.ok [] else readRows s) tabNames
    ∧ getJobUrlsFromTabsHandler readRows tabNames =
        Except.ok (getJobUrlsFromTabs readRows tabNames) := by
  refine ⟨?_, rfl⟩
  unfold getJobUrlsFromTabs
  congr 1
  apply List.map_congr_left
  intro s _
  by_cases hs : s = t
  · subst hs
    simp [fetchTab, h, extractTabUrls]
  · simp [fetchTab, hs]

/-- C3 witness: four partitions of which T2 throws; the aggregate equals
the aggregate with T2 reading as empty, and the handler returns ok. -/
theorem c3_partition_failure_isolated_witness :
    c3Read "T2" = Except.error "read failure"
    ∧ (getJobUrlsFromTabs c3Read c3Tabs =
        getJobUrlsFromTabs (fun s => if s = "T2" then Except.ok [] else c3Read s) c3Tabs
      ∧ getJobUrlsFromTabsHandler c3Read c3Tabs =
          Except.ok (getJobUrlsFromTabs c3Read c3Tabs)) :=
  ⟨rfl, c3_partition_failure_isolated c3Read c3Tabs "T2" "read failure" rfl⟩

/-- C4 counterexample: two empty inputs ARE considered equivalent by the
equivalence check, both normalizing to the empty string. -/
theorem c4_counterexample : areUrlsDuplicate "" "" = true := by decide

/-- C4 as amended: normalize of the empty string is the empty string,
and the duplicate grouper discards entries with an empty normalized key
so no emitted group is keyed by the empty string; but areUrlsDuplicate
itself returns true on two empty inputs. -/
theorem c4_empty_normalization :
    normalizeUrl "" = ""
    ∧ areUrlsDuplicate "" "" = true
    ∧ ∀ (currentYear : Nat) (entries : List JobEntry)
        (kg : String × List DuplicateInfo),
        kg ∈ findDuplicates currentYear entries → kg.1 ≠ "" := by
  refine ⟨by decide, by decide, ?_⟩
  intro currentYear entries kg hkg
  have key_ne : ∀ (es : List JobEntry) (m : List (String × List DuplicateInfo)),
      (∀ kv ∈ m, kv.1 ≠ "") → ∀ kv ∈ es.foldl
        (fun m e =>
          let n := normalizeUrl e.url
          if n = "" then m else addToUrlMap m n (toDupInfo e)) m, kv.1 ≠ "" := by
    intro es
    induction es with
    | nil => intro m hm kv hkv; exact hm kv hkv
    | cons e es ih =>
      intro m hm kv hkv
      simp only [List.foldl_cons] at hkv
      by_cases hn : normalizeUrl e.url = ""
      · exact ih m hm kv (by simpa [hn] using hkv)
      · refine ih _ ?_ kv (by simpa [hn] using hkv)
        intro kv' hkv'
        have mem_add : ∀ (m' : List (String × List DuplicateInfo)) k v kv'',
            kv'' ∈ addToUrlMap m' k v → kv''.1 = k ∨ kv''.1 ∈ m'.map Prod.fst := by
          intro m'
          induction m' with
          | nil =>
            intro k v kv'' hmem
            rcases List.mem_singleton.mp hmem with rfl
            exact Or.inl rfl
          | cons p rest ihm =>
            obtain ⟨k', vs⟩ := p
            intro k v kv'' hmem
            by_cases hpk : k' = k
            · simp only [addToUrlMap, if_pos hpk] at hmem
              rcases List.mem_cons.mp hmem with heq | hmem'
              · left; rw [heq]; exact hpk
              · right
                simp only [List.map_cons]
                exact List.mem_cons_of_mem _ (List.mem_map_of_mem _ hmem')
            · simp only [addToUrlMap, if_neg hpk] at hmem
              rcases List.mem_cons.mp hmem with heq | hmem'
              · right
                simp only [List.map_cons]
                rw [heq]
                exact List.mem_cons_self _ _
              · rcases ihm k v kv'' hmem' with hk | hk
                · exact Or.inl hk
                · right
                  simp only [List.map_cons]
                  exact List.mem_cons_of_mem _ hk
        rcases mem_add m (normalizeUrl e.url) (toDupInfo e) kv' hkv' with hk | hk
        · rw [hk]; exact hn
        · rcases List.mem_map.mp hk with ⟨kv0, hkv0, heq⟩
          rw [← heq]
          exact hm kv0 hkv0
  have hbk : ∀ kv ∈ buildUrlMap entries, kv.1 ≠ "" := by
    intro kv hkv
    exact key_ne entries [] (by intro kv' h'; cases h') kv hkv
  rcases List.mem_filterMap.mp hkg with ⟨kv, hkv, hf⟩
  by_cases hl : 1 < kv.2.length
  · rw [if_pos hl] at hf
    cases hf
    exact hbk kv hkv
  · rw [if_neg hl] at hf
    cases hf

/-- C4 witness: a concrete duplicate pair yields a group whose key is the
non-empty normalized URL. -/
theorem c4_empty_normalization_witness :
    (("https://ex.com/a",
      [{ toDupInfo c4EntryA with isDuplicate := false },
       { toDupInfo c4EntryB with isDuplicate := true }]) ∈
        findDuplicates 2024 [c4EntryA, c4EntryB])
    ∧ ("https://ex.com/a",
      [{ toDupInfo c4EntryA with isDuplicate := false },
       { toDupInfo c4EntryB with isDuplicate := true }]).1 ≠ "" :=
  ⟨by decide,
   c4_empty_normalization.2.2 2024 [c4EntryA, c4EntryB] _ (by decide)⟩

/-- C5 counterexample: the tracking deny-list names only five specific
utm_ keys; a parameter with another utm_-prefixed key (utm_id) survives
normalization, contradicting the wildcard reading. -/
theorem c5_counterexample :
    normalizeUrl "https://ex.com/a?utm_id=5" = "https://ex.com/a?utm_id=5"
    ∧ strIncludes (normalizeUrl "https://ex.com/a?utm_id=5") "utm_id" = true := by
  decide

/-- C5 as amended: every query parameter whose lowercased key is in the
explicit tracking list (utm_source, utm_medium, utm_campaign, utm_term,
utm_content, ref, source, fbclid, gclid, msclkid, _ga, _gid) is dropped
by the parameter filter; a parameter with any other utm_-prefixed key and
a non-empty value, such as utm_id, is retained. -/
theorem c5_tracking_params_dropped :
    (∀ (ps : List (String × String)) (kv : String × String),
      kv ∈ filterParams ps → trackingParams.contains (jsToLower kv.1) = false)
    ∧ filterParams [("utm_id", "5")] = [("utm_id", "5")] := by
  constructor
  · intro ps kv hkv
    have hp := List.of_mem_filter hkv
    by_cases ht : trackingParams.contains (jsToLower kv.1) = true
    · exfalso
      unfold keepParam at hp
      simp only [ht, Bool.not_true, Bool.false_and, Bool.or_false] at hp
      have hmem : jsToLower kv.1 ∈ importantParams := List.mem_of_elem_eq_true hp
      have hdisj : ∀ x ∈ importantParams, trackingParams.contains x = false := by decide
      rw [hdisj (jsToLower kv.1) hmem] at ht
      exact Bool.false_ne_true ht
    · simpa using ht
  · decide
/-- C5 witness: a retained job-identifier parameter has a lowercased key
outside the tracking list. -/
theorem c5_tracking_params_dropped_witness :
    (("jk", "12") ∈ filterParams [("jk", "12")])
    ∧ trackingParams.contains (jsToLower "jk") = false :=
  ⟨by decide, c5_tracking_params_dropped.1 [("jk", "12")] ("jk", "12") (by decide)⟩

/-- The comparator is antisymmetric: swapping its arguments negates it. -/
theorem dupCmp_neg (year : Nat) (a b : DuplicateInfo) :
    dupCmp year a b = -dupCmp year b a := by
  unfold dupCmp
  rcases parseTabRange year a.tabName with _ | ta <;>
    rcases parseTabRange year b.tabName with _ | tb <;>
    simp only []
  · omega
  · omega
  · omega
  · split_ifs <;> omega

/-- The head of an insertion is the inserted element or the old head. -/
theorem insertStable_head {α : Type} (gt : α → α → Bool) (x : α) (l : List α) :
    (insertStable gt x l).head? = some x ∨ (insertStable gt x l).head? = l.head? := by
  cases l with
  | nil => left; rfl
  | cons y ys =>
    unfold insertStable
    by_cases h : gt y x = true
    · rw [if_pos h]
      left
      rfl
    · rw [if_neg h]
      right
      rfl

/-- Insertion preserves adjacent sortedness for a comparator whose strict
order is asymmetric. -/
theorem chain_insertStable {α : Type} (gt : α → α → Bool)
    (hasym : ∀ a b, gt a b = true → gt b a = false) (x : α) :
    ∀ l : List α, List.Chain' (fun u v => gt u v = false) l →
      List.Chain' (fun u v => gt u v = false) (insertStable gt x l) := by
  intro l
  induction l with
  | nil =>
    intro h
    simp [insertStable]
  | cons y ys ih =>
    intro h
    unfold insertStable
    by_cases hg : gt y x = true
    · rw [if_pos hg, List.chain'_cons]
      exact ⟨hasym y x hg, h⟩
    · rw [if_neg hg]
      rw [List.chain'_cons'] at h ⊢
      refine ⟨?_, ih h.2⟩
      intro z hz
      rcases insertStable_head gt x ys with he | he
      · rw [he] at hz
        have hzx : x = z := by simpa using hz
        rw [← hzx]
        cases hgt : gt y x with
        | false => rfl
        | true => exact absurd hgt hg
      · rw [he] at hz
        exact h.1 z hz

/-- The stable sort model emits an adjacently sorted list for a
comparator whose strict order is asymmetric. -/
theorem chain_sortStable {α : Type} (gt : α → α → Bool)
    (hasym : ∀ a b, gt a b = true → gt b a = false) (l : List α) :
    List.Chain' (fun u v => gt u v = false) (sortStable gt l) := by
  unfold sortStable
  have main : ∀ (l2 acc : List α), List.Chain' (fun u v => gt u v = false) acc →
      List.Chain' (fun u v => gt u v = false)
        (l2.foldl (fun acc x => insertStable gt x acc) acc) := by
    intro l2
    induction l2 with
    | nil => intro acc h; exact h
    | cons x xs ih =>
      intro acc h
      exact ih _ (chain_insertStable gt hasym x acc h)
  exact main l [] (by simp)

/-- Sorting a bucket with the findDuplicates comparator yields a list in
which every adjacent pair compares at most zero. -/
theorem chain_dupCmp_sortStable (year : Nat) (l : List DuplicateInfo) :
    List.Chain' (fun u v => dupCmp year u v ≤ 0)
      (sortStable (fun a b => 0 < dupCmp year a b) l) := by
  have hasym : ∀ a b : DuplicateInfo,
      (decide (0 < dupCmp year a b)) = true → (decide (0 < dupCmp year b a)) = false := by
    intro a b hab
    rw [decide_eq_true_eq] at hab
    rw [decide_eq_false_iff_not]
    have hneg := dupCmp_neg year b a
    omega
  have h := chain_sortStable (fun a b : DuplicateInfo => 0 < dupCmp year a b) hasym l
  exact h.imp (fun u v hab => by
    rw [decide_eq_false_iff_not] at hab
    omega)

/-- The duplicate marking pass preserves adjacent sortedness, since the
comparator never reads the duplicate flag. -/
theorem chain_mark (year : Nat) :
    ∀ l : List DuplicateInfo, List.Chain' (fun u v => dupCmp year u v ≤ 0) l →
    ∀ n : Nat, List.Chain' (fun u v => dupCmp year u v ≤ 0)
      ((List.enumFrom n l).map fun ie => { ie.2 with isDuplicate := 0 < ie.1 }) := by
  intro l
  induction l with
  | nil =>
    intro h n
    simp [List.enumFrom]
  | cons x xs ih =>
    intro h n
    cases xs with
    | nil => simp [List.enumFrom]
    | cons y t =>
      rw [List.chain'_cons] at h
      simp only [List.enumFrom, List.map_cons]
      rw [List.chain'_cons]
      refine ⟨h.1, ?_⟩
      have h2 := ih h.2 (n + 1)
      simpa only [List.enumFrom, List.map_cons] using h2

/-- Every entry of the marking pass started at a positive index carries
the duplicate mark. -/
theorem mark_from_pos_true :
    ∀ (l : List DuplicateInfo) (n : Nat), 0 < n →
    ∀ x ∈ (List.enumFrom n l).map (fun ie => { ie.2 with isDuplicate := 0 < ie.1 }),
      x.isDuplicate = true := by
  intro l
  induction l with
  | nil =>
    intro n hn x hx
    simp [List.enumFrom] at hx
  | cons y ys ih =>
    intro n hn x hx
    simp only [List.enumFrom, List.map_cons] at hx
    rcases List.mem_cons.mp hx with rfl | hx2
    · exact decide_eq_true hn
    · exact ih (n + 1) (by omega) x hx2

/-- The first entry of an emitted group is never marked. -/
theorem group_head_unmarked (l : List DuplicateInfo) :
    ∀ x, (l.enum.map fun ie => { ie.2 with isDuplicate := 0 < ie.1 }).head? = some x →
      x.isDuplicate = false := by
  cases l with
  | nil =>
    intro x hx
    simp [List.enum, List.enumFrom] at hx
  | cons s0 st =>
    intro x hx
    simp only [List.enum, List.enumFrom, List.map_cons, List.head?_cons] at hx
    injection hx with hx2
    rw [← hx2]
    rfl

/-- Every entry after the first of an emitted group is marked. -/
theorem group_tail_marked (l : List DuplicateInfo) :
    ∀ x ∈ (l.enum.map fun ie => { ie.2 with isDuplicate := 0 < ie.1 }).tail,
      x.isDuplicate = true := by
  cases l with
  | nil =>
    intro x hx
    simp [List.enum, List.enumFrom] at hx
  | cons s0 st =>
    intro x hx
    simp only [List.enum, List.enumFrom, List.map_cons, List.tail_cons] at hx
    exact mark_from_pos_true st 1 (by omega) x hx

/-- C6: for every year and every input list, every group emitted by
findDuplicates is adjacently sorted by the comparator (partition start
date ascending, then row index ascending, row index alone when a tab
name does not parse), its first entry is unmarked and every later entry
is marked; and in the three-entry scenario (partitions starting Jan 1,
Jan 8, Jan 15 at rows 5, 3, 9) every input order yields the single group
with the Jan 1 entry at index 0 and exactly the later entries marked. -/
theorem c6_group_sorted_chronologically :
    (∀ (currentYear : Nat) (entries : List JobEntry),
      ∀ kv ∈ findDuplicates currentYear entries,
        List.Chain' (fun u v => dupCmp currentYear u v ≤ 0) kv.2
        ∧ (∀ x, kv.2.head? = some x → x.isDuplicate = false)
        ∧ (∀ x ∈ kv.2.tail, x.isDuplicate = true))
    ∧ (∀ l : List JobEntry, l.Perm [c6Jan1, c6Jan8, c6Jan15] →
      findDuplicates 2024 l = c6Expected) := by
  constructor
  · intro currentYear entries kv hkv
    unfold findDuplicates at hkv
    rcases List.mem_filterMap.mp hkv with ⟨kv0, hkv0, hf⟩
    simp only [] at hf
    split at hf
    · injection hf with hf2
      subst hf2
      refine ⟨?_, ?_, ?_⟩
      · exact chain_mark currentYear _ (chain_dupCmp_sortStable currentYear kv0.2) 0
      · exact group_head_unmarked _
      · exact group_tail_marked _
    · cases hf
  · intro l h
    have hlen : l.length = 3 := h.length_eq
    obtain ⟨a, b, c, rfl⟩ : ∃ a b c, l = [a, b, c] := by
      rcases l with _ | ⟨a, _ | ⟨b, _ | ⟨c, _ | ⟨d, t⟩⟩⟩⟩
      · simp at hlen
      · simp at hlen
      · simp at hlen
      · exact ⟨a, b, c, rfl⟩
      · simp at hlen
    have ha : a ∈ [c6Jan1, c6Jan8, c6Jan15] := h.subset (by simp)
    have hb : b ∈ [c6Jan1, c6Jan8, c6Jan15] := h.subset (by simp)
    have hc : c ∈ [c6Jan1, c6Jan8, c6Jan15] := h.subset (by simp)
    simp only [List.mem_cons, List.not_mem_nil, or_false] at ha hb hc
    rcases ha with rfl | rfl | rfl <;> rcases hb with rfl | rfl | rfl <;>
      rcases hc with rfl | rfl | rfl <;>
      first
      | exact absurd h (by decide)
      | decide

/-- C6 witness: the reversed input order still puts the Jan 1 entry
first, and the universal part applied to that input shows the emitted
group is adjacently sorted by the comparator. -/
theorem c6_group_sorted_chronologically_witness :
    findDuplicates 2024 [c6Jan15, c6Jan8, c6Jan1] = c6Expected
    ∧ List.Chain' (fun u v => dupCmp 2024 u v ≤ 0)
        [{ toDupInfo c6Jan1 with isDuplicate := false },
         { toDupInfo c6Jan8 with isDuplicate := true },
         { toDupInfo c6Jan15 with isDuplicate := true }] :=
  ⟨c6_group_sorted_chronologically.2 [c6Jan15, c6Jan8, c6Jan1] (by decide),
    (c6_group_sorted_chronologically.1 2024 [c6Jan15, c6Jan8, c6Jan1]
      ("https://jobs.example.com/post/123",
        [{ toDupInfo c6Jan1 with isDuplicate := false },
         { toDupInfo c6Jan8 with isDuplicate := true },
         { toDupInfo c6Jan15 with isDuplicate := true }])
      (by decide)).1⟩

/-- C7: the read cache is a single slot keyed by spreadsheet id and
profile name: a lookup returns the stored list exactly when both keys
match and the age is below the five-minute time-to-live; a miss makes
loadExistingData re-fetch and replace the slot with a fresh timestamped
entry. -/
theorem c7_cache_single_slot_ttl :
    (∀ (c : CacheSlot) (sid pname : String) (now : Int),
      cacheLookup (some c) false sid pname now = some c.urls ↔
        (c.spreadsheetId = sid ∧ c.profileName = pname ∧ now - c.timestamp < CACHE_TTL))
    ∧ (∀ (slot : Option CacheSlot) (sid pname : String) (now : Int)
        (fetched : List CachedUrl × List String),
        cacheLookup slot false sid pname now = none →
        loadExistingData slot false sid pname now fetched =
          (some { spreadsheetId := sid, profileName := pname,
                  last4Tabs := fetched.2, urls := fetched.1, timestamp := now },
           fetched.1))
    ∧ CACHE_TTL = 5 * 60 * 1000 := by
  refine ⟨?_, ?_, rfl⟩
  · intro c sid pname now
    constructor
    · intro h
      by_cases hc : (c.spreadsheetId = sid && c.profileName = pname
          && decide (now - c.timestamp < CACHE_TTL)) = true
      · have hc' : (c.spreadsheetId = sid ∧ c.profileName = pname)
            ∧ now - c.timestamp < CACHE_TTL := by
          simpa [Bool.and_eq_true, decide_eq_true_eq] using hc
        exact ⟨hc'.1.1, hc'.1.2, hc'.2⟩
      · rw [cacheLookup, if_neg (by simp)] at h
        rw [if_neg hc] at h
        cases h
    · intro ⟨h1, h2, h3⟩
      rw [cacheLookup, if_neg (by simp)]
      rw [if_pos (by simp [h1, h2, h3])]
  · intro slot sid pname now fetched h
    rw [loadExistingData, h]

/-- C7 witness: the cache scenario: a hit on the stored key pair within
the time-to-live, and a miss on a different scope key replaces the slot
with a freshly fetched one. -/
theorem c7_cache_single_slot_ttl_witness :
    (cacheLookup (some c7Slot) false "s1" "p1" 1000 = some c7Slot.urls ↔
      (c7Slot.spreadsheetId = "s1" ∧ c7Slot.profileName = "p1"
        ∧ (1000 : Int) - c7Slot.timestamp < CACHE_TTL))
    ∧ cacheLookup (some c7Slot) false "s1" "p2" 1000 = none
    ∧ cacheLookup (some c7Slot) false "s1" "p1" 300000 = none
    ∧ loadExistingData (some c7Slot) false "s1" "p2" 1000 ([], ["T1"]) =
        (some { spreadsheetId := "s1", profileName := "p2", last4Tabs := ["T1"],
                urls := [], timestamp := 1000 },
         []) :=
  ⟨c7_cache_single_slot_ttl.1 c7Slot "s1" "p1" 1000, by decide, by decide,
   c7_cache_single_slot_ttl.2.1 (some c7Slot) "s1" "p2" 1000 ([], ["T1"]) (by decide)⟩

/-- C10: a row whose two URL fields are textually different but
equivalent under normalization yields two entries with the same partition
and row (the comparison is textual and happens before normalization), and
findDuplicates emits a group containing both with the column F entry
first as the canonical original and only the column G entry marked. -/
theorem c10_same_row_two_columns_group :
    extractTabUrls c10Tab [[], c10Row] = [c10FEntry, c10GEntry]
    ∧ c10FEntry.url ≠ c10GEntry.url
    ∧ normalizeUrl c10FEntry.url = normalizeUrl c10GEntry.url
    ∧ c10FEntry.tabName = c10GEntry.tabName
    ∧ c10FEntry.rowIndex = c10GEntry.rowIndex
    ∧ findDuplicates 2024 (extractTabUrls c10Tab [[], c10Row]) = c10Expected := by
  decide

/-! Character-level lemmas about the ASCII lowercase map, used by the
idempotence analysis of normalizeUrl. -/

/-- Packing a valid code point and reading it back is the identity. -/
theorem toNat_ofNat_valid (n : Nat) (h : n.isValidChar) : (Char.ofNat n).toNat = n := by
  unfold Char.ofNat
  rw [dif_pos h]
  unfold Char.ofNatAux
  simp [Char.toNat, UInt32.toNat, BitVec.toNat_ofNatLt]

/-- Code point of the lowercased character. -/
theorem toNat_toLower (c : Char) :
    (Char.toLower c).toNat =
      if 65 ≤ c.toNat ∧ c.toNat ≤ 90 then c.toNat + 32 else c.toNat := by
  unfold Char.toLower
  split
  · next h =>
    rw [if_pos ⟨h.1, h.2⟩]
    exact toNat_ofNat_valid _ (Or.inl (by omega))
  · next h =>
    rw [if_neg fun hc => h ⟨hc.1, hc.2⟩]

/-- Characters with equal code points are equal. -/
theorem char_eq_of_toNat_eq {c d : Char} (h : c.toNat = d.toNat) : c = d := by
  apply Char.eq_of_val_eq
  exact UInt32.ext h

/-- The ASCII lowercase map is idempotent. -/
theorem toLower_idem (c : Char) : Char.toLower (Char.toLower c) = Char.toLower c := by
  apply char_eq_of_toNat_eq
  rw [toNat_toLower (Char.toLower c), toNat_toLower c]
  by_cases h : 65 ≤ c.toNat ∧ c.toNat ≤ 90
  · rw [if_pos h, if_neg (by omega)]
  · rw [if_neg h, if_neg h]

/-- Lowercasing does not change whether a character is white space. -/
theorem isSpaceChar_toLower (c : Char) :
    isSpaceChar (Char.toLower c) = isSpaceChar c := by
  unfold isSpaceChar
  rw [toNat_toLower]
  by_cases h : 65 ≤ c.toNat ∧ c.toNat ≤ 90
  · rw [if_pos h]
    have e1 : (decide (c.toNat + 32 = 32)) = false := by rw [decide_eq_false_iff_not]; omega
    have e2 : (decide (c.toNat + 32 = 9)) = false := by rw [decide_eq_false_iff_not]; omega
    have e3 : (decide (c.toNat + 32 = 10)) = false := by rw [decide_eq_false_iff_not]; omega
    have e4 : (decide (c.toNat + 32 = 13)) = false := by rw [decide_eq_false_iff_not]; omega
    have f1 : (decide (c.toNat = 32)) = false := by rw [decide_eq_false_iff_not]; omega
    have f2 : (decide (c.toNat = 9)) = false := by rw [decide_eq_false_iff_not]; omega
    have f3 : (decide (c.toNat = 10)) = false := by rw [decide_eq_false_iff_not]; omega
    have f4 : (decide (c.toNat = 13)) = false := by rw [decide_eq_false_iff_not]; omega
    rw [e1, e2, e3, e4, f1, f2, f3, f4]
  · rw [if_neg h]

/-- Lowercasing does not move a code point into or out of a target that
is not an ASCII letter code. -/
theorem toLower_toNat_eq_iff (c : Char) (n : Nat) (hn : ¬(65 ≤ n ∧ n ≤ 122)) :
    ((Char.toLower c).toNat = n) ↔ (c.toNat = n) := by
  rw [toNat_toLower]
  by_cases h : 65 ≤ c.toNat ∧ c.toNat ≤ 90
  · rw [if_pos h]
    constructor <;> intro <;> omega
  · rw [if_neg h]

/-- Lowercasing preserves the path character test. -/
theorem pathChar_toLower (c : Char) : pathChar (Char.toLower c) = pathChar c := by
  unfold pathChar
  have h63 := toLower_toNat_eq_iff c 63 (by omega)
  have h35 := toLower_toNat_eq_iff c 35 (by omega)
  simp [h63, h35]

/-- Lowercasing preserves the host character test. -/
theorem hostChar_toLower (c : Char) : hostChar (Char.toLower c) = hostChar c := by
  unfold hostChar
  have h47 := toLower_toNat_eq_iff c 47 (by omega)
  have h63 := toLower_toNat_eq_iff c 63 (by omega)
  have h35 := toLower_toNat_eq_iff c 35 (by omega)
  simp [h47, h63, h35]

/-- A character equals a non-letter symbol exactly when its lowercase
does; specialization used for literal symbol characters. -/
theorem toLower_eq_symbol_iff (c d : Char) (hd : ¬(65 ≤ d.toNat ∧ d.toNat ≤ 122)) :
    (Char.toLower c = d) ↔ (c = d) := by
  constructor
  · intro h
    apply char_eq_of_toNat_eq
    exact (toLower_toNat_eq_iff c d.toNat hd).mp (by rw [h])
  · intro h
    apply char_eq_of_toNat_eq
    exact (toLower_toNat_eq_iff c d.toNat hd).mpr (by rw [h])

/-! List and string lemmas for the normalization analysis. -/

/-- The head surviving a dropWhile fails the predicate. -/
theorem dropWhile_head_false (p : Char → Bool) :
    ∀ (l : List Char) (a : Char), (l.dropWhile p).head? = some a → p a = false := by
  intro l
  induction l with
  | nil => intro a h; cases h
  | cons c t ih =>
    intro a h
    by_cases hc : p c = true
    · rw [List.dropWhile_cons_of_pos hc] at h
      exact ih a h
    · rw [List.dropWhile_cons_of_neg hc] at h
      cases h
      simpa using hc

/-- dropWhile is the identity when the head already fails the
predicate. -/
theorem dropWhile_eq_self_of_head (p : Char → Bool) (l : List Char)
    (h : ∀ a, l.head? = some a → p a = false) : l.dropWhile p = l := by
  cases l with
  | nil => rfl
  | cons c t => exact List.dropWhile_cons_of_neg (by simp [h c rfl])

/-- dropWhile is idempotent. -/
theorem dropWhile_idem (p : Char → Bool) (l : List Char) :
    (l.dropWhile p).dropWhile p = l.dropWhile p :=
  dropWhile_eq_self_of_head p _ (fun a h => dropWhile_head_false p l a h)

/-- One full trim absorbs a second one. -/
theorem trimChars_idem (l : List Char) : trimChars (trimChars l) = trimChars l := by
  unfold trimChars
  set p := isSpaceChar with hp
  set front := l.dropWhile p with hfront
  have hrev : ((front.reverse.dropWhile p).reverse).reverse = front.reverse.dropWhile p := by
    rw [List.reverse_reverse]
  have hpre : (front.reverse.dropWhile p).reverse <+: front := by
    have hsuf : front.reverse.dropWhile p <:+ front.reverse := List.dropWhile_suffix p
    have := List.reverse_prefix.mpr hsuf
    simpa using this
  have hstep2 : ((front.reverse.dropWhile p).reverse).dropWhile p =
      (front.reverse.dropWhile p).reverse := by
    apply dropWhile_eq_self_of_head
    intro a ha
    obtain ⟨t, ht⟩ := hpre
    have hfronthead : front.head? = some a := by
      rw [← ht]
      cases hcase : (front.reverse.dropWhile p).reverse with
      | nil => rw [hcase] at ha; cases ha
      | cons x xs =>
        rw [hcase] at ha
        cases ha
        simp
    exact dropWhile_head_false p l a hfronthead
  rw [hstep2, hrev, dropWhile_idem]

/-- Lowercasing twice is lowercasing once, on character lists. -/
theorem map_toLower_idem (l : List Char) :
    (l.map Char.toLower).map Char.toLower = l.map Char.toLower := by
  rw [List.map_map]
  apply List.map_congr_left
  intro a _
  exact toLower_idem a

/-- Trimming commutes with lowercasing. -/
theorem trimChars_map_toLower (l : List Char) :
    trimChars (l.map Char.toLower) = (trimChars l).map Char.toLower := by
  have hpf : (isSpaceChar ∘ Char.toLower) = isSpaceChar := funext isSpaceChar_toLower
  unfold trimChars
  rw [List.dropWhile_map, hpf, ← List.map_reverse, List.dropWhile_map, hpf,
    ← List.map_reverse]

/-- String-level trim is idempotent. -/
theorem jsTrim_idem (s : String) : jsTrim (jsTrim s) = jsTrim s := by
  unfold jsTrim
  rw [String.ext_iff]
  exact trimChars_idem s.data

/-- String-level trim and lowercase commute. -/
theorem jsTrim_jsToLower (s : String) : jsTrim (jsToLower s) = jsToLower (jsTrim s) := by
  unfold jsTrim jsToLower
  rw [String.ext_iff]
  exact trimChars_map_toLower s.data

/-- String-level lowercase is idempotent. -/
theorem jsToLower_idem (s : String) : jsToLower (jsToLower s) = jsToLower s := by
  unfold jsToLower
  rw [String.ext_iff]
  exact map_toLower_idem s.data

/-! Parse failure is stable under the fallback normalization. -/

/-- The parse succeeds or fails depending only on the lowercased
character list. -/
theorem parseCore_none_iff (cs : List Char) :
    parseCore cs = none ↔ parseShape (cs.map Char.toLower) = none := by
  unfold parseCore
  exact Option.map_eq_none'

/-- When a string does not parse, its trimmed lowercased form does not
parse either. -/
theorem parseURL_fallback_none (s : String) (h : parseURL s = none) :
    parseURL (jsToLower (jsTrim s)) = none := by
  unfold parseURL at h ⊢
  rw [jsTrim_jsToLower, jsTrim_idem] at *
  rw [parseCore_none_iff] at h ⊢
  have hdata : (jsToLower (jsTrim s)).data = (jsTrim s).data.map Char.toLower := rfl
  rw [hdata, map_toLower_idem]
  exact h

/-- The fallback output is already trimmed and lowercased. -/
theorem fallback_trim_lower (s : String)
    (hs : ¬(jsToLower (jsTrim s)).data.getLast? = some '/') :
    fallbackNormalize s = jsToLower (jsTrim s)
    ∧ jsTrim (jsToLower (jsTrim s)) = jsToLower (jsTrim s)
    ∧ jsToLower (jsToLower (jsTrim s)) = jsToLower (jsTrim s) := by
  refine ⟨?_, ?_, jsToLower_idem _⟩
  · unfold fallbackNormalize stripSlashChars
    rw [if_neg hs]
  · rw [jsTrim_jsToLower, jsTrim_idem]

/-! Query string split and join lemmas. -/

/-- splitOnChar never returns the empty list of segments. -/
theorem splitOnChar_ne_nil (sep : Char) (l : List Char) : splitOnChar sep l ≠ [] := by
  induction l with
  | nil => simp [splitOnChar]
  | cons c t ih =>
    unfold splitOnChar at *
    simp only [List.foldr_cons]
    rcases hacc : t.foldr _ [[]] with _ | ⟨cur, rs⟩
    · exact absurd hacc ih
    · by_cases hc : c = sep <;> simp [hc]

/-- Cons equation of splitOnChar once the tail split is known. -/
theorem splitOnChar_cons_eq (sep c : Char) (l : List Char) (cur : List Char)
    (rs : List (List Char)) (h : splitOnChar sep l = cur :: rs) :
    splitOnChar sep (c :: l) =
      if c = sep then [] :: cur :: rs else (c :: cur) :: rs := by
  unfold splitOnChar at *
  simp only [List.foldr_cons, h]

/-- Segments contain no separator and only characters of the input. -/
theorem splitOnChar_mem_props (sep : Char) :
    ∀ (l : List Char), ∀ seg ∈ splitOnChar sep l,
      sep ∉ seg ∧ ∀ c ∈ seg, c ∈ l := by
  intro l
  induction l with
  | nil =>
    intro seg hseg
    simp [splitOnChar] at hseg
    simp [hseg]
  | cons c t ih =>
    intro seg hseg
    rcases hacc : splitOnChar sep t with _ | ⟨cur, rs⟩
    · exact absurd hacc (splitOnChar_ne_nil sep t)
    · rw [splitOnChar_cons_eq sep c t cur rs hacc] at hseg
      by_cases hc : c = sep
      · rw [if_pos hc] at hseg
        rcases List.mem_cons.mp hseg with rfl | hseg'
        · simp
        · have := ih seg (by rw [hacc]; exact hseg')
          exact ⟨this.1, fun d hd => List.mem_cons_of_mem c (this.2 d hd)⟩
      · rw [if_neg hc] at hseg
        rcases List.mem_cons.mp hseg with rfl | hseg'
        · have hcur := ih cur (by rw [hacc]; exact List.mem_cons_self cur rs)
          constructor
          · intro hmem
            rcases List.mem_cons.mp hmem with h1 | h1
            · exact hc h1.symm
            · exact hcur.1 h1
          · intro d hd
            rcases List.mem_cons.mp hd with rfl | h1
            · exact List.mem_cons_self d t
            · exact List.mem_cons_of_mem c (hcur.2 d h1)
        · have := ih seg (by rw [hacc]; exact List.mem_cons_of_mem cur hseg')
          exact ⟨this.1, fun d hd => List.mem_cons_of_mem c (this.2 d hd)⟩

/-- Splitting a separator-free list yields one segment. -/
theorem splitOnChar_no_sep (sep : Char) (l : List Char) (h : sep ∉ l) :
    splitOnChar sep l = [l] := by
  induction l with
  | nil => rfl
  | cons c t ih =>
    have ht : sep ∉ t := fun hm => h (List.mem_cons_of_mem c hm)
    have hc : ¬ c = sep := fun hce => h (hce ▸ List.mem_cons_self c t)
    rw [splitOnChar_cons_eq sep c t t [] (ih ht), if_neg hc]

/-- Splitting at the first separator after a separator-free segment. -/
theorem splitOnChar_append_sep (sep : Char) (seg rest : List Char) (h : sep ∉ seg) :
    splitOnChar sep (seg ++ sep :: rest) = seg :: splitOnChar sep rest := by
  induction seg with
  | nil =>
    rcases hacc : splitOnChar sep rest with _ | ⟨cur, rs⟩
    · exact absurd hacc (splitOnChar_ne_nil sep rest)
    · simp only [List.nil_append]
      rw [splitOnChar_cons_eq sep sep rest cur rs hacc, if_pos rfl]
  | cons c t ih =>
    have ht : sep ∉ t := fun hm => h (List.mem_cons_of_mem c hm)
    have hc : ¬ c = sep := fun hce => h (hce ▸ List.mem_cons_self c t)
    have hrec := ih ht
    simp only [List.cons_append]
    rw [splitOnChar_cons_eq sep c (t ++ sep :: rest) t (splitOnChar sep rest) hrec,
      if_neg hc]

/-- Rebuilding a string from its characters is the identity. -/
theorem mk_data (s : String) : String.mk s.data = s := rfl

/-- takeWhile over an append whose first part fully satisfies the
predicate. -/
theorem takeWhile_append_all (p : Char → Bool) (l1 l2 : List Char)
    (h : ∀ a ∈ l1, p a = true) :
    (l1 ++ l2).takeWhile p = l1 ++ l2.takeWhile p := by
  induction l1 with
  | nil => simp
  | cons c t ih =>
    simp only [List.cons_append]
    rw [List.takeWhile_cons_of_pos (h c (List.mem_cons_self c t))]
    rw [ih (fun a ha => h a (List.mem_cons_of_mem c ha))]

/-- dropWhile over an append whose first part fully satisfies the
predicate. -/
theorem dropWhile_append_all (p : Char → Bool) (l1 l2 : List Char)
    (h : ∀ a ∈ l1, p a = true) :
    (l1 ++ l2).dropWhile p = l2.dropWhile p := by
  induction l1 with
  | nil => simp
  | cons c t ih =>
    simp only [List.cons_append]
    rw [List.dropWhile_cons_of_pos (h c (List.mem_cons_self c t))]
    exact ih (fun a ha => h a (List.mem_cons_of_mem c ha))

/-- Splitting a serialized segment back at its first equals sign. -/
theorem segToKV_eq (k v : String) (hk : ('=' : Char) ∉ k.data) :
    ((k.data ++ '=' :: v.data).takeWhile (fun c => !(c = '=')) = k.data)
    ∧ ((k.data ++ '=' :: v.data).dropWhile (fun c => !(c = '=')) = '=' :: v.data) := by
  have hall : ∀ a ∈ k.data, (fun c => !(c = '=')) a = true := by
    intro a ha
    simp only [Bool.not_eq_true']
    exact decide_eq_false (fun he => hk (he ▸ ha))
  constructor
  · rw [takeWhile_append_all _ _ _ hall, List.takeWhile_cons_of_neg (by simp)]
    simp
  · rw [dropWhile_append_all _ _ _ hall, List.dropWhile_cons_of_neg (by simp)]

/-- The separator does not occur in a serialized segment with clean key
and value. -/
theorem segment_no_amp (k v : String) (hk : ('&' : Char) ∉ k.data)
    (hv : ('&' : Char) ∉ v.data) : ('&' : Char) ∉ (k.data ++ '=' :: v.data) := by
  intro hmem
  rcases List.mem_append.mp hmem with h1 | h1
  · exact hk h1
  · rcases List.mem_cons.mp h1 with h2 | h2
    · cases h2
    · exact hv h2

/-- Unfolding equation of parseQuery at the character level. -/
theorem parseQuery_data (q : String) :
    parseQuery q = ((splitOnChar '&' q.data).filter (fun seg => !seg.isEmpty)).map
      (fun seg =>
        (String.mk (seg.takeWhile (fun c => !(c = '='))),
         match seg.dropWhile (fun c => !(c = '=')) with
         | [] => ""
         | _ :: v => String.mk v)) := rfl

/-- Character data of the serialized parameters. -/
theorem joinParams_data (ks : List (String × String)) :
    (joinParams ks).data = joinParamChars ks := rfl

/-- Parsing the serialized parameters recovers them exactly, provided no
key contains an ampersand or an equals sign and no value contains an
ampersand. -/
theorem parseQuery_joinParams (ks : List (String × String))
    (h : ∀ kv ∈ ks, ('&' : Char) ∉ kv.1.data ∧ ('=' : Char) ∉ kv.1.data
      ∧ ('&' : Char) ∉ kv.2.data) :
    parseQuery (joinParams ks) = ks := by
  induction ks with
  | nil => rfl
  | cons kv rest ih =>
    obtain ⟨hk1, hk2, hv1⟩ := h kv (List.mem_cons_self kv rest)
    have hseg := segment_no_amp kv.1 kv.2 hk1 hv1
    have hne : (kv.1.data ++ '=' :: kv.2.data).isEmpty = false := by
      cases hd : kv.1.data with
      | nil => simp [hd]
      | cons a t => simp [hd]
    have hnetrue : (!(kv.1.data ++ '=' :: kv.2.data).isEmpty) = true := by
      rw [hne]
      rfl
    cases rest with
    | nil =>
      rw [parseQuery_data, joinParams_data]
      rw [show joinParamChars [kv] = kv.1.data ++ '=' :: kv.2.data from rfl]
      rw [splitOnChar_no_sep '&' _ hseg]
      rw [List.filter_cons, if_pos hnetrue, List.filter_nil, List.map_cons, List.map_nil]
      rw [(segToKV_eq kv.1 kv.2 hk2).1, (segToKV_eq kv.1 kv.2 hk2).2]
    | cons kv2 rest2 =>
      have hrest : parseQuery (joinParams (kv2 :: rest2)) = kv2 :: rest2 :=
        ih (fun x hx => h x (List.mem_cons_of_mem kv hx))
      rw [parseQuery_data, joinParams_data]
      rw [show joinParamChars (kv :: kv2 :: rest2)
          = (kv.1.data ++ '=' :: kv.2.data) ++ '&' :: joinParamChars (kv2 :: rest2) by
        simp [joinParamChars]]
      rw [splitOnChar_append_sep '&' _ _ hseg]
      rw [List.filter_cons, if_pos hnetrue, List.map_cons]
      rw [(segToKV_eq kv.1 kv.2 hk2).1, (segToKV_eq kv.1 kv.2 hk2).2]
      rw [← joinParams_data, ← parseQuery_data, hrest]

/-- Lowercasing a serialized parameter list lowercases each key and
value. -/
theorem joinParamChars_map_toLower (ks : List (String × String)) :
    (joinParamChars ks).map Char.toLower
      = joinParamChars (ks.map fun kv => (jsToLower kv.1, jsToLower kv.2)) := by
  have heq : Char.toLower '=' = '=' := by decide
  have hamp : Char.toLower '&' = '&' := by decide
  induction ks with
  | nil => rfl
  | cons kv rest ih =>
    cases rest with
    | nil =>
      simp [joinParamChars, jsToLower, heq]
    | cons kv2 rest2 =>
      simp only [joinParamChars, List.map_cons, List.map_append, List.map_cons,
        heq, hamp, jsToLower] at ih ⊢
      rw [ih]

/-- String-level form of the previous lemma. -/
theorem jsToLower_joinParams (ks : List (String × String)) :
    jsToLower (joinParams ks)
      = joinParams (ks.map fun kv => (jsToLower kv.1, jsToLower kv.2)) := by
  rw [String.ext_iff]
  exact joinParamChars_map_toLower ks

/-- Lowercasing preserves emptiness of a string. -/
theorem jsToLower_eq_empty_iff (v : String) : jsToLower v = "" ↔ v = "" := by
  rw [String.ext_iff, String.ext_iff]
  show v.data.map Char.toLower = [] ↔ v.data = []
  simp

/-- A parameter kept by the filter is kept again after lowercasing. -/
theorem keepParam_lower (kv : String × String) (h : keepParam kv = true) :
    keepParam (jsToLower kv.1, jsToLower kv.2) = true := by
  unfold keepParam at h ⊢
  rw [Bool.or_eq_true] at h ⊢
  rcases h with h | h
  · left
    simpa [jsToLower_idem] using h
  · right
    rw [Bool.and_eq_true, Bool.and_eq_true] at h ⊢
    obtain ⟨⟨h1, h2⟩, h3⟩ := h
    refine ⟨⟨?_, ?_⟩, ?_⟩
    · simpa [jsToLower_idem] using h1
    · simp only [Bool.not_eq_true', decide_eq_false_iff_not] at h2 ⊢
      intro he
      exact h2 ((jsToLower_eq_empty_iff kv.2).mp he)
    · simp only [Bool.not_eq_true', decide_eq_false_iff_not] at h3 ⊢
      rw [jsTrim_jsToLower]
      intro he
      exact h3 ((jsToLower_eq_empty_iff (jsTrim kv.2)).mp he)

/-- The filter is the identity on the lowercased image of its own
output. -/
theorem filterParams_map_lower (ps : List (String × String)) :
    filterParams ((filterParams ps).map fun kv => (jsToLower kv.1, jsToLower kv.2))
      = (filterParams ps).map fun kv => (jsToLower kv.1, jsToLower kv.2) := by
  unfold filterParams
  apply List.filter_eq_self.mpr
  intro kv' hkv'
  rcases List.mem_map.mp hkv' with ⟨kv, hkv, rfl⟩
  exact keepParam_lower kv (List.of_mem_filter hkv)

/-- Keys and values produced by parseQuery contain no ampersand, keys no
equals sign, and all their characters come from the query string. -/
theorem parseQuery_mem_props (q : String) :
    ∀ kv ∈ parseQuery q,
      (('&' : Char) ∉ kv.1.data ∧ ('=' : Char) ∉ kv.1.data
        ∧ ('&' : Char) ∉ kv.2.data)
      ∧ (∀ c ∈ kv.1.data, c ∈ q.data) ∧ (∀ c ∈ kv.2.data, c ∈ q.data) := by
  intro kv hkv
  rw [parseQuery_data] at hkv
  rcases List.mem_map.mp hkv with ⟨seg, hseg, rfl⟩
  have hsegprops := splitOnChar_mem_props '&' q.data seg (List.mem_of_mem_filter hseg)
  have hkey_sub : ∀ c ∈ seg.takeWhile (fun c => !(c = '=')), c ∈ seg :=
    fun c hc => (List.takeWhile_prefix _).subset hc
  have hkey_ne : ∀ c ∈ seg.takeWhile (fun c => !(c = '=')), ¬ c = '=' := by
    intro c hc
    have := List.mem_takeWhile_imp hc
    simpa using this
  constructor
  · refine ⟨?_, ?_, ?_⟩
    · intro hmem
      exact hsegprops.1 (hkey_sub '&' hmem)
    · intro hmem
      exact hkey_ne '=' hmem rfl
    · cases hdrop : seg.dropWhile (fun c => !(c = '=')) with
      | nil => simp [hdrop]
      | cons c v =>
        simp only [hdrop]
        intro hmem
        have hsub : ('&' : Char) ∈ seg := by
          have hsuf := (List.dropWhile_suffix (l := seg) (fun c => !(c = '='))).subset
          rw [hdrop] at hsuf
          exact hsuf (List.mem_cons_of_mem c hmem)
        exact hsegprops.1 hsub
  · constructor
    · intro c hc
      exact hsegprops.2 c (hkey_sub c hc)
    · cases hdrop : seg.dropWhile (fun c => !(c = '=')) with
      | nil => simp [hdrop]
      | cons c v =>
        simp only [hdrop]
        intro d hd
        have hsub : d ∈ seg := by
          have hsuf := (List.dropWhile_suffix (l := seg) (fun c => !(c = '='))).subset
          rw [hdrop] at hsuf
          exact hsuf (List.mem_cons_of_mem c hd)
        exact hsegprops.2 d hsub

/-- Stripping the trailing path slash commutes with lowercasing. -/
theorem stripPathSlash_jsToLower (p : String) :
    stripPathSlash (jsToLower p) = jsToLower (stripPathSlash p) := by
  have hlast : (jsToLower p).data.getLast? = p.data.getLast?.map Char.toLower := by
    show (p.data.map Char.toLower).getLast? = _
    exact List.getLast?_map ..
  have hlen : (jsToLower p).data.length = p.data.length := by
    show (p.data.map Char.toLower).length = _
    exact List.length_map ..
  have hiff : ((jsToLower p).data.getLast? = some '/') ↔ (p.data.getLast? = some '/') := by
    rw [hlast]
    cases hl : p.data.getLast? with
    | none => simp
    | some a =>
      simp only [Option.map_some']
      constructor
      · intro hsome
        have := (toLower_eq_symbol_iff a '/' (by decide)).mp (Option.some.inj hsome)
        rw [this]
      · intro hsome
        rw [Option.some.inj hsome]
        decide
  unfold stripPathSlash
  by_cases hc : (p.data.getLast? = some '/' ∧ 1 < p.data.length)
  · rw [if_pos (by
        rw [Bool.and_eq_true, decide_eq_true_eq, decide_eq_true_eq]
        exact ⟨hiff.mpr hc.1, by rw [hlen]; exact hc.2⟩),
      if_pos (by
        rw [Bool.and_eq_true, decide_eq_true_eq, decide_eq_true_eq]
        exact ⟨hc.1, hc.2⟩)]
    rw [String.ext_iff]
    show ((p.data.map Char.toLower).dropLast) = (String.mk p.data.dropLast).data.map Char.toLower
    rw [show (String.mk p.data.dropLast).data = p.data.dropLast from rfl]
    exact (List.map_dropLast ..).symm
  · rw [if_neg, if_neg]
    · intro hcon
      rw [Bool.and_eq_true, decide_eq_true_eq, decide_eq_true_eq] at hcon
      exact hc ⟨hcon.1, hcon.2⟩
    · intro hcon
      rw [Bool.and_eq_true, decide_eq_true_eq, decide_eq_true_eq] at hcon
      exact hc ⟨hiff.mp hcon.1, hlen ▸ hcon.2⟩

/-- Taking as many elements as the takeWhile prefix is the takeWhile
prefix. -/
theorem take_takeWhile_length (p : Char → Bool) (l : List Char) :
    l.take (l.takeWhile p).length = l.takeWhile p := by
  obtain ⟨t, ht⟩ := List.takeWhile_prefix (l := l) p
  set n := (l.takeWhile p).length with hn
  conv_lhs => rw [← ht]
  rw [hn]
  exact List.take_left ..

/-- Dropping as many elements as the takeWhile prefix is the dropWhile
suffix. -/
theorem drop_takeWhile_length (p : Char → Bool) (l : List Char) :
    l.drop (l.takeWhile p).length = l.dropWhile p := by
  set n := (l.takeWhile p).length with hn
  conv_lhs => rw [← List.takeWhile_append_dropWhile (p := p) (l := l)]
  rw [hn]
  exact List.drop_left ..

/-- Every character of a lowercased list is fixed by lowercasing. -/
theorem mem_map_toLower_fixed (a : Char) (l : List Char)
    (h : a ∈ l.map Char.toLower) : Char.toLower a = a := by
  rcases List.mem_map.mp h with ⟨b, _, rfl⟩
  exact toLower_idem b

/-- A non-empty takeWhile starts at the head of the list, which
satisfies the predicate. -/
theorem takeWhile_eq_cons_head (p : Char → Bool) (X : List Char) (y : Char)
    (ys : List Char) (h : X.takeWhile p = y :: ys) :
    X.head? = some y ∧ p y = true := by
  cases X with
  | nil => cases h
  | cons x xs =>
    by_cases hx : p x = true
    · rw [List.takeWhile_cons_of_pos hx] at h
      cases h
      exact ⟨rfl, hx⟩
    · rw [List.takeWhile_cons_of_neg hx] at h
      cases h

/-- The URL object built from an accepted shape satisfies the parser
invariant. -/
theorem buildURL_wf_aux (cs : List Char) (c : Char) (rest afterSlashes : List Char)
    (qlen : Option Nat)
    (hl : cs.map Char.toLower = c :: rest)
    (halpha : (97 ≤ c.toNat && c.toNat ≤ 122) = true)
    (hdrop : List.drop (List.takeWhile schemeRestChar (c :: rest)).length (c :: rest)
      = ':' :: '/' :: '/' :: afterSlashes)
    (hhost : ((decide ((List.takeWhile hostChar afterSlashes).length = 0))
      || (List.takeWhile hostChar afterSlashes).any isSpaceChar) = false)
    (hq : ∀ ql, qlen = some ql → ∃ aq,
      List.drop
        (List.takeWhile pathChar
          (List.drop (List.takeWhile hostChar afterSlashes).length afterSlashes)).length
        (List.drop (List.takeWhile hostChar afterSlashes).length afterSlashes)
          = '?' :: aq
      ∧ ql = (List.takeWhile (fun ch => !(ch.toNat = 35)) aq).length) :
    wellFormedURL (buildURL (c :: rest) cs
      ((List.takeWhile schemeRestChar (c :: rest)).length,
        (List.takeWhile hostChar afterSlashes).length,
        (List.takeWhile pathChar
          (List.drop (List.takeWhile hostChar afterSlashes).length afterSlashes)).length,
        qlen)) = true := by
  have hlowfix : ∀ a ∈ (c :: rest), Char.toLower a = a := by
    rw [← hl]
    exact fun a ha => mem_map_toLower_fixed a cs ha
  have hcscheme : schemeRestChar c = true := by
    unfold schemeRestChar
    rw [halpha]
    rfl
  have hsl : List.takeWhile schemeRestChar (c :: rest)
      = c :: List.takeWhile schemeRestChar rest := List.takeWhile_cons_of_pos hcscheme
  have htake_scheme : (c :: rest).take (List.takeWhile schemeRestChar (c :: rest)).length
      = List.takeWhile schemeRestChar (c :: rest) := take_takeWhile_length ..
  have hdrop3 : (c :: rest).drop ((List.takeWhile schemeRestChar (c :: rest)).length + 3)
      = afterSlashes := by
    rw [← List.drop_drop, hdrop]
    rfl
  have hafterHost : List.drop (List.takeWhile hostChar afterSlashes).length afterSlashes
      = List.dropWhile hostChar afterSlashes := drop_takeWhile_length ..
  have hmapPath : ((cs.drop ((List.takeWhile schemeRestChar (c :: rest)).length + 3
        + (List.takeWhile hostChar afterSlashes).length)).take
        (List.takeWhile pathChar
          (List.drop (List.takeWhile hostChar afterSlashes).length afterSlashes)).length).map
        Char.toLower
      = List.takeWhile pathChar
          (List.drop (List.takeWhile hostChar afterSlashes).length afterSlashes) := by
    rw [List.map_take, List.map_drop, hl]
    rw [← List.drop_drop, hdrop3]
    exact take_takeWhile_length ..
  have hsub_host : ∀ a ∈ List.takeWhile hostChar afterSlashes, a ∈ (c :: rest) := by
    intro a ha
    have h1 : a ∈ afterSlashes := (List.takeWhile_prefix hostChar).subset ha
    have h2 : a ∈ ':' :: '/' :: '/' :: afterSlashes := by
      exact List.mem_cons_of_mem _ (List.mem_cons_of_mem _ (List.mem_cons_of_mem _ h1))
    rw [← hdrop] at h2
    exact List.drop_subset _ _ h2
  simp only [buildURL, wellFormedURL]
  simp only [htake_scheme, hdrop3, take_takeWhile_length hostChar afterSlashes]
  have h_schemeNE : (!(List.takeWhile schemeRestChar (c :: rest)).isEmpty) = true := by
    rw [hsl]
    rfl
  have h_schemeHead : (List.takeWhile schemeRestChar (c :: rest)).headD 'a' = c := by
    rw [hsl]
    rfl
  have h_schemeAll : (List.takeWhile schemeRestChar (c :: rest)).all schemeRestChar = true :=
    List.all_eq_true.mpr fun a ha => List.mem_takeWhile_imp ha
  have h_schemeFix : ((List.takeWhile schemeRestChar (c :: rest)).all
      fun ch => decide (ch.toLower = ch)) = true := by
    apply List.all_eq_true.mpr
    intro a ha
    exact decide_eq_true (hlowfix a ((List.takeWhile_prefix schemeRestChar).subset ha))
  have hhost' : ¬((List.takeWhile hostChar afterSlashes).length = 0)
      ∧ (List.takeWhile hostChar afterSlashes).any isSpaceChar = false := by
    rw [Bool.or_eq_false_iff] at hhost
    exact ⟨by simpa using hhost.1, hhost.2⟩
  have h_hostNE : (!(List.takeWhile hostChar afterSlashes).isEmpty) = true := by
    cases hcase : List.takeWhile hostChar afterSlashes with
    | nil => exact absurd (by rw [hcase]; rfl) hhost'.1
    | cons x xs => rfl
  have h_hostAll : (List.takeWhile hostChar afterSlashes).all hostChar = true :=
    List.all_eq_true.mpr fun a ha => List.mem_takeWhile_imp ha
  have h_hostFix : ((List.takeWhile hostChar afterSlashes).all
      fun ch => decide (ch.toLower = ch)) = true := by
    apply List.all_eq_true.mpr
    intro a ha
    exact decide_eq_true (hlowfix a (hsub_host a ha))
  have h_hostSpace : (!(List.takeWhile hostChar afterSlashes).any isSpaceChar) = true := by
    rw [hhost'.2]
    rfl
  simp only [h_schemeNE, h_schemeHead, h_schemeAll, h_schemeFix, h_hostNE, h_hostAll,
    h_hostFix, h_hostSpace, halpha, Bool.true_and]
  have hallpath : ∀ a ∈ List.take
      (List.takeWhile pathChar
        (List.drop (List.takeWhile hostChar afterSlashes).length afterSlashes)).length
      (List.drop ((List.takeWhile schemeRestChar (c :: rest)).length + 3 +
        (List.takeWhile hostChar afterSlashes).length) cs), pathChar a = true := by
    intro a ha
    have hmem : Char.toLower a ∈ List.takeWhile pathChar
        (List.drop (List.takeWhile hostChar afterSlashes).length afterSlashes) := by
      rw [← hmapPath]
      exact List.mem_map_of_mem Char.toLower ha
    have := List.mem_takeWhile_imp hmem
    rw [pathChar_toLower] at this
    exact this
  have hconsslash : ∀ (a : Char) (t : List Char), List.take
      (List.takeWhile pathChar
        (List.drop (List.takeWhile hostChar afterSlashes).length afterSlashes)).length
      (List.drop ((List.takeWhile schemeRestChar (c :: rest)).length + 3 +
        (List.takeWhile hostChar afterSlashes).length) cs) = a :: t → a = '/' := by
    intro a t hpcc
    have hmapcc : Char.toLower a :: t.map Char.toLower = List.takeWhile pathChar
        (List.drop (List.takeWhile hostChar afterSlashes).length afterSlashes) := by
      rw [← hmapPath, hpcc]
      rfl
    have hhead := takeWhile_eq_cons_head pathChar _ _ _ hmapcc.symm
    have hheadfail : hostChar (Char.toLower a) = false := by
      apply dropWhile_head_false hostChar afterSlashes
      rw [← hafterHost]
      exact hhead.1
    have hpc2 : pathChar (Char.toLower a) = true := hhead.2
    unfold pathChar at hpc2
    unfold hostChar at hheadfail
    rw [Bool.and_eq_true] at hpc2
    have h47 : (Char.toLower a).toNat = 47 := by
      rcases Bool.and_eq_false_iff.mp hheadfail with h1 | h1
      · rcases Bool.and_eq_false_iff.mp h1 with h2 | h2
        · simpa using h2
        · exfalso
          have := hpc2.1
          simp at this h2
          exact this h2
      · exfalso
        have := hpc2.2
        simp at this h1
        exact this h1
    have hlow : Char.toLower a = '/' := char_eq_of_toNat_eq (by rw [h47]; rfl)
    exact (toLower_eq_symbol_iff a '/' (by decide)).mp hlow
  rw [Bool.and_eq_true, Bool.and_eq_true, Bool.and_eq_true]
  refine ⟨⟨⟨?_, ?_⟩, ?_⟩, ?_⟩
  · split
    · decide
    · next hpc =>
      cases hpcc : List.take
          (List.takeWhile pathChar
            (List.drop (List.takeWhile hostChar afterSlashes).length afterSlashes)).length
          (List.drop ((List.takeWhile schemeRestChar (c :: rest)).length + 3 +
            (List.takeWhile hostChar afterSlashes).length) cs) with
      | nil => exact absurd hpcc hpc
      | cons a t => rfl
  · split
    · decide
    · next hpc =>
      cases hpcc : List.take
          (List.takeWhile pathChar
            (List.drop (List.takeWhile hostChar afterSlashes).length afterSlashes)).length
          (List.drop ((List.takeWhile schemeRestChar (c :: rest)).length + 3 +
            (List.takeWhile hostChar afterSlashes).length) cs) with
      | nil => exact absurd hpcc hpc
      | cons a t =>
        rw [hconsslash a t hpcc]
        rfl
  · split
    · decide
    · next hpc =>
      apply List.all_eq_true.mpr
      intro x hx
      exact hallpath x hx
  · cases qlen with
    | none => rfl
    | some ql =>
      obtain ⟨aq, haq, hql⟩ := hq ql rfl
      have hmapQuery : ((List.take ql
          (List.drop ((List.takeWhile schemeRestChar (c :: rest)).length + 3 +
            (List.takeWhile hostChar afterSlashes).length +
            (List.takeWhile pathChar
              (List.drop (List.takeWhile hostChar afterSlashes).length afterSlashes)).length
            + 1) cs)).map Char.toLower)
          = List.takeWhile (fun ch => !(ch.toNat = 35)) aq := by
        rw [List.map_take, List.map_drop, hl]
        rw [← List.drop_drop, ← List.drop_drop, ← List.drop_drop, hdrop3]
        rw [show List.drop
            (List.takeWhile pathChar
              (List.drop (List.takeWhile hostChar afterSlashes).length afterSlashes)).length
            (List.drop (List.takeWhile hostChar afterSlashes).length afterSlashes)
            = '?' :: aq from haq]
        rw [show List.drop 1 ('?' :: aq) = aq from rfl]
        rw [hql]
        exact take_takeWhile_length ..
      apply List.all_eq_true.mpr
      intro x hx
      have hmem : Char.toLower x ∈ List.takeWhile (fun ch => !(ch.toNat = 35)) aq := by
        rw [← hmapQuery]
        exact List.mem_map_of_mem Char.toLower hx
      have := List.mem_takeWhile_imp hmem
      simp only [Bool.not_eq_true', decide_eq_false_iff_not] at this ⊢
      intro hx35
      exact this ((toLower_toNat_eq_iff x 35 (by omega)).mpr hx35)

/-- Inversion of a successful parse: the resulting URL object satisfies
the parser invariant. -/
theorem parseCore_wellFormed (cs : List Char) (u : URLObj)
    (h : parseCore cs = some u) : wellFormedURL u = true := by
  unfold parseCore at h
  rcases Option.map_eq_some'.mp h with ⟨shape, hshape, rfl⟩
  cases hl : cs.map Char.toLower with
  | nil =>
    rw [hl] at hshape
    cases hshape
  | cons c rest =>
    rw [hl] at hshape
    simp only [parseShape] at hshape
    split at hshape
    · rename_i halpha
      split at hshape
      · rename_i afterSlashes hdropeq
        split at hshape
        · exact absurd hshape (by simp)
        · rename_i hhostne
          split at hshape
          · rename_i afterQuestion hdropq
            injection hshape with hsh
            rw [← hsh]
            exact buildURL_wf_aux cs c rest afterSlashes _ hl halpha hdropeq
              (Bool.eq_false_iff.mpr hhostne)
              (fun ql hql => ⟨afterQuestion, hdropq, by injection hql with h2; exact h2.symm⟩)
          · injection hshape with hsh
            rw [← hsh]
            exact buildURL_wf_aux cs c rest afterSlashes none hl halpha hdropeq
              (Bool.eq_false_iff.mpr hhostne)
              (fun ql hql => Option.noConfusion hql)
      · exact absurd hshape (by simp)
    · exact absurd hshape (by simp)

/-- takeWhile of a list all of whose elements satisfy the predicate. -/
theorem takeWhile_all (p : Char → Bool) (l : List Char)
    (h : ∀ a ∈ l, p a = true) : l.takeWhile p = l := by
  have := takeWhile_append_all p l [] h
  simpa using this

/-- Unpacked form of the parser invariant. -/
theorem wf_facts (u : URLObj) (h : wellFormedURL u = true) :
    u.scheme.data ≠ []
    ∧ (97 ≤ (u.scheme.data.headD 'a').toNat ∧ (u.scheme.data.headD 'a').toNat ≤ 122)
    ∧ (∀ a ∈ u.scheme.data, schemeRestChar a = true)
    ∧ (∀ a ∈ u.scheme.data, Char.toLower a = a)
    ∧ u.host.data ≠ []
    ∧ (∀ a ∈ u.host.data, hostChar a = true)
    ∧ u.host.data.any isSpaceChar = false
    ∧ (∀ a ∈ u.host.data, Char.toLower a = a)
    ∧ u.pathname.data ≠ []
    ∧ u.pathname.data.headD ' ' = '/'
    ∧ (∀ a ∈ u.pathname.data, pathChar a = true)
    ∧ (∀ a ∈ u.query.data, ¬ a.toNat = 35) := by
  unfold wellFormedURL at h
  simp only [Bool.and_eq_true, List.all_eq_true, decide_eq_true_eq,
    Bool.not_eq_true'] at h
  obtain ⟨⟨⟨⟨⟨⟨⟨⟨⟨⟨⟨h1, h2⟩, h3⟩, h4⟩, h5⟩, h6⟩, h7⟩, h8⟩, h9⟩, h10⟩, h11⟩, h12⟩ := h
  refine ⟨?_, h2, h3, h4, ?_, h6, ?_, h8, ?_, h10, h11, ?_⟩
  · intro he
    rw [he] at h1
    cases h1
  · intro he
    rw [he] at h5
    cases h5
  · cases hc : u.host.data.any isSpaceChar
    · rfl
    · rw [hc] at h7
      cases h7
  · intro he
    rw [he] at h9
    cases h9
  · intro a ha
    have := h12 a ha
    simpa using this

/-- Stripping the trailing slash preserves the slash head, non-emptiness
and membership. -/
theorem stripPathSlash_facts (p : String) (hne : p.data ≠ [])
    (hhead : p.data.headD ' ' = '/') :
    (stripPathSlash p).data ≠ []
    ∧ (stripPathSlash p).data.headD ' ' = '/'
    ∧ ∀ a ∈ (stripPathSlash p).data, a ∈ p.data := by
  unfold stripPathSlash
  split
  · next hc =>
    rw [Bool.and_eq_true, decide_eq_true_eq, decide_eq_true_eq] at hc
    cases hd : p.data with
    | nil => exact absurd hd hne
    | cons a t =>
      cases ht : t with
      | nil =>
        exfalso
        rw [hd, ht] at hc
        simp at hc
      | cons b t2 =>
        rw [show (a :: b :: t2).dropLast = a :: (b :: t2).dropLast from rfl]
        refine ⟨by simp, ?_, ?_⟩
        · rw [hd, ht] at hhead
          simpa using hhead
        · intro x hx
          rw [show (String.mk (a :: (b :: t2).dropLast)).data
              = a :: (b :: t2).dropLast from rfl] at hx
          rcases List.mem_cons.mp hx with rfl | hx2
          · exact List.mem_cons_self x (b :: t2)
          · exact List.mem_cons_of_mem a (List.dropLast_subset (b :: t2) hx2)
  · exact ⟨hne, hhead, fun a ha => ha⟩

/-- Every character of the serialized parameters is a separator, an
equals sign, or a character of a key or value. -/
theorem joinParamChars_mem (ks : List (String × String)) (a : Char)
    (ha : a ∈ joinParamChars ks) :
    a = '=' ∨ a = '&' ∨ ∃ kv ∈ ks, (a ∈ kv.1.data ∨ a ∈ kv.2.data) := by
  induction ks with
  | nil => cases ha
  | cons kv rest ih =>
    cases rest with
    | nil =>
      simp only [joinParamChars] at ha
      rcases List.mem_append.mp ha with h1 | h1
      · exact Or.inr (Or.inr ⟨kv, List.mem_cons_self kv [], Or.inl h1⟩)
      · rcases List.mem_cons.mp h1 with rfl | h2
        · exact Or.inl rfl
        · exact Or.inr (Or.inr ⟨kv, List.mem_cons_self kv [], Or.inr h2⟩)
    | cons kv2 rest2 =>
      simp only [joinParamChars] at ha
      rcases List.mem_append.mp ha with h1 | h1
      · rcases List.mem_append.mp h1 with h2 | h2
        · exact Or.inr (Or.inr ⟨kv, List.mem_cons_self kv _, Or.inl h2⟩)
        · rcases List.mem_cons.mp h2 with rfl | h3
          · exact Or.inl rfl
          · exact Or.inr (Or.inr ⟨kv, List.mem_cons_self kv _, Or.inr h3⟩)
      · rcases List.mem_cons.mp h1 with rfl | h2
        · exact Or.inr (Or.inl rfl)
        · rcases ih h2 with h5 | h5 | ⟨kv3, hkv3, h5⟩
          · exact Or.inl h5
          · exact Or.inr (Or.inl h5)
          · exact Or.inr (Or.inr ⟨kv3, List.mem_cons_of_mem kv hkv3, h5⟩)

/-- trimChars is the identity when both ends are free of white space. -/
theorem trimChars_eq_self (l : List Char)
    (hh : ∀ a, l.head? = some a → isSpaceChar a = false)
    (hl : ∀ a, l.getLast? = some a → isSpaceChar a = false) :
    trimChars l = l := by
  unfold trimChars
  rw [dropWhile_eq_self_of_head isSpaceChar l hh]
  rw [dropWhile_eq_self_of_head isSpaceChar l.reverse
    (fun a ha => hl a (by rwa [List.head?_reverse] at ha))]
  exact List.reverse_reverse l

/-- Lowercasing is the identity on a list of characters it fixes. -/
theorem map_toLower_fixed (l : List Char) (h : ∀ a ∈ l, Char.toLower a = a) :
    l.map Char.toLower = l := by
  induction l with
  | nil => rfl
  | cons a t ih =>
    rw [List.map_cons, h a (List.mem_cons_self a t),
      ih (fun b hb => h b (List.mem_cons_of_mem a hb))]

/-- Appending strings concatenates their character data. -/
theorem data_append (s t : String) : (s ++ t).data = s.data ++ t.data := rfl

/-- The last element of an append with a non-empty right part. -/
theorem getLast_append_right (l1 l2 : List Char) (h : l2 ≠ []) :
    (l1 ++ l2).getLast? = l2.getLast? := by
  rw [← List.head?_reverse, ← List.head?_reverse, List.reverse_append]
  cases hr : l2.reverse with
  | nil => exact absurd (List.reverse_eq_nil_iff.mp hr) h
  | cons c t => rw [List.cons_append]; rfl

/-- The last element of a cons with a non-empty tail. -/
theorem getLast_cons_right (a : Char) (l : List Char) (h : l ≠ []) :
    (a :: l).getLast? = l.getLast? := by
  have h2 := getLast_append_right [a] l h
  simpa using h2

/-- The last element of a list is a member. -/
theorem mem_of_getLast (l : List Char) (a : Char) (h : l.getLast? = some a) :
    a ∈ l := by
  rw [← List.head?_reverse] at h
  have hm : a ∈ l.reverse := by
    cases hr : l.reverse with
    | nil => rw [hr] at h; cases h
    | cons c t =>
      rw [hr] at h
      rw [show (c :: t).head? = some c from rfl] at h
      injection h with h2
      exact h2 ▸ List.mem_cons_self c t
  simpa using hm

/-- Shape analysis of a reassembled URL carrying a query part. -/
theorem parseShape_build_q (c0 : Char) (slr hl pdr qd : List Char)
    (hc0 : (97 ≤ c0.toNat && c0.toNat ≤ 122) = true)
    (hslall : ∀ a ∈ c0 :: slr, schemeRestChar a = true)
    (hhlne : hl.length ≠ 0)
    (hhlsp : hl.any isSpaceChar = false)
    (hhlall : ∀ a ∈ hl, hostChar a = true)
    (hpdall : ∀ a ∈ '/' :: pdr, pathChar a = true)
    (hqd : ∀ a ∈ qd, (!(a.toNat = 35)) = true) :
    parseShape (c0 :: (slr ++ ':' :: '/' :: '/' :: (hl ++ '/' :: (pdr ++ '?' :: qd))))
      = some ((c0 :: slr).length, hl.length, ('/' :: pdr).length, some qd.length) := by
  have htw : (c0 :: (slr ++ ':' :: '/' :: '/' :: (hl ++ '/' :: (pdr ++ '?' :: qd)))).takeWhile
      schemeRestChar = c0 :: slr := by
    rw [List.takeWhile_cons_of_pos (hslall c0 (List.mem_cons_self c0 slr))]
    rw [takeWhile_append_all schemeRestChar slr _
      (fun a ha => hslall a (List.mem_cons_of_mem c0 ha))]
    rw [List.takeWhile_cons_of_neg (by decide), List.append_nil]
  have hdropS : (c0 :: (slr ++ ':' :: '/' :: '/' :: (hl ++ '/' :: (pdr ++ '?' :: qd)))).drop
      (c0 :: slr).length = ':' :: '/' :: '/' :: (hl ++ '/' :: (pdr ++ '?' :: qd)) := by
    rw [List.length_cons, List.drop_succ_cons]
    exact List.drop_left ..
  have htwh : (hl ++ '/' :: (pdr ++ '?' :: qd)).takeWhile hostChar = hl := by
    rw [takeWhile_append_all hostChar hl _ hhlall,
      List.takeWhile_cons_of_neg (by decide), List.append_nil]
  have hdroph : (hl ++ '/' :: (pdr ++ '?' :: qd)).drop hl.length
      = '/' :: (pdr ++ '?' :: qd) := List.drop_left ..
  have htwp : ('/' :: (pdr ++ '?' :: qd)).takeWhile pathChar = '/' :: pdr := by
    rw [List.takeWhile_cons_of_pos (hpdall '/' (List.mem_cons_self '/' pdr))]
    rw [takeWhile_append_all pathChar pdr _
      (fun a ha => hpdall a (List.mem_cons_of_mem '/' ha))]
    rw [List.takeWhile_cons_of_neg (by decide), List.append_nil]
  have hdropp : ('/' :: (pdr ++ '?' :: qd)).drop ('/' :: pdr).length = '?' :: qd := by
    rw [List.length_cons, List.drop_succ_cons]
    exact List.drop_left ..
  have htwq : qd.takeWhile (fun c => !(c.toNat = 35)) = qd := takeWhile_all _ qd hqd
  have hcond : (decide (hl.length = 0) || hl.any isSpaceChar) = false := by
    rw [hhlsp, decide_eq_false hhlne]
    rfl
  simp only [parseShape]
  rw [if_pos hc0, htw, hdropS]
  split
  · rename_i afterSlashes heq
    injection heq with h1 heq
    injection heq with h2 heq
    injection heq with h3 heq
    subst heq
    rw [htwh]
    rw [if_neg (by rw [hcond]; simp)]
    rw [hdroph, htwp, hdropp]
    split
    · rename_i afterQuestion heq2
      injection heq2 with h4 heq2
      subst heq2
      rw [htwq]
    · rename_i hne
      exact absurd rfl (hne qd)
  · rename_i hne
    exact absurd rfl (hne (hl ++ '/' :: (pdr ++ '?' :: qd)))

/-- Shape analysis of a reassembled URL with no query part. -/
theorem parseShape_build_noq (c0 : Char) (slr hl pdr : List Char)
    (hc0 : (97 ≤ c0.toNat && c0.toNat ≤ 122) = true)
    (hslall : ∀ a ∈ c0 :: slr, schemeRestChar a = true)
    (hhlne : hl.length ≠ 0)
    (hhlsp : hl.any isSpaceChar = false)
    (hhlall : ∀ a ∈ hl, hostChar a = true)
    (hpdall : ∀ a ∈ '/' :: pdr, pathChar a = true) :
    parseShape (c0 :: (slr ++ ':' :: '/' :: '/' :: (hl ++ '/' :: pdr)))
      = some ((c0 :: slr).length, hl.length, ('/' :: pdr).length, none) := by
  have htw : (c0 :: (slr ++ ':' :: '/' :: '/' :: (hl ++ '/' :: pdr))).takeWhile
      schemeRestChar = c0 :: slr := by
    rw [List.takeWhile_cons_of_pos (hslall c0 (List.mem_cons_self c0 slr))]
    rw [takeWhile_append_all schemeRestChar slr _
      (fun a ha => hslall a (List.mem_cons_of_mem c0 ha))]
    rw [List.takeWhile_cons_of_neg (by decide), List.append_nil]
  have hdropS : (c0 :: (slr ++ ':' :: '/' :: '/' :: (hl ++ '/' :: pdr))).drop
      (c0 :: slr).length = ':' :: '/' :: '/' :: (hl ++ '/' :: pdr) := by
    rw [List.length_cons, List.drop_succ_cons]
    exact List.drop_left ..
  have htwh : (hl ++ '/' :: pdr).takeWhile hostChar = hl := by
    rw [takeWhile_append_all hostChar hl _ hhlall,
      List.takeWhile_cons_of_neg (by decide), List.append_nil]
  have hdroph : (hl ++ '/' :: pdr).drop hl.length = '/' :: pdr := List.drop_left ..
  have htwp : ('/' :: pdr).takeWhile pathChar = '/' :: pdr :=
    takeWhile_all pathChar _ hpdall
  have hdropp : ('/' :: pdr).drop ('/' :: pdr).length = [] := List.drop_length _
  have hcond : (decide (hl.length = 0) || hl.any isSpaceChar) = false := by
    rw [hhlsp, decide_eq_false hhlne]
    rfl
  simp only [parseShape]
  rw [if_pos hc0, htw, hdropS]
  split
  · rename_i afterSlashes heq
    injection heq with h1 heq
    injection heq with h2 heq
    injection heq with h3 heq
    subst heq
    rw [htwh]
    rw [if_neg (by rw [hcond]; simp)]
    rw [hdroph, htwp, hdropp]
  · rename_i hne
    exact absurd rfl (hne (hl ++ '/' :: pdr))

/-- Reparsing a reassembled well-formed URL whose filtered query is empty
succeeds and yields the lowercased slash-stripped components. -/
theorem reparse_noq (u : URLObj) (h : wellFormedURL u = true)
    (hpws : ∀ a ∈ u.pathname.data, isSpaceChar a = false)
    (hqe : joinParams (filterParams (parseQuery u.query)) = "") :
    parseURL (normalizeParsed u) = some
      { scheme := u.scheme, host := u.host,
        pathname := jsToLower (stripPathSlash u.pathname),
        query := jsToLower (joinParams (filterParams (parseQuery u.query))) } := by
  obtain ⟨f1, f2, f3, f4, f5, f6, f7, f8, f9, f10, f11, f12⟩ := wf_facts u h
  obtain ⟨hpne, hphead, hpsub⟩ := stripPathSlash_facts u.pathname f9 f10
  cases hsl : u.scheme.data with
  | nil => exact absurd hsl f1
  | cons c0 slr =>
  cases hpd : (stripPathSlash u.pathname).data with
  | nil => exact absurd hpd hpne
  | cons p0 pdt =>
  have hp0 : p0 = '/' := by
    rw [hpd] at hphead
    simpa using hphead
  subst hp0
  have hrange : 97 ≤ c0.toNat ∧ c0.toNat ≤ 122 := by
    rw [hsl] at f2
    simpa using f2
  have hc0 : (97 ≤ c0.toNat && c0.toNat ≤ 122) = true := by
    rw [Bool.and_eq_true]
    exact ⟨decide_eq_true hrange.1, decide_eq_true hrange.2⟩
  have hslall : ∀ a ∈ c0 :: slr, schemeRestChar a = true :=
    fun a ha => f3 a (by rw [hsl]; exact ha)
  have hmap_sl : (c0 :: slr).map Char.toLower = c0 :: slr :=
    map_toLower_fixed _ (fun a ha => f4 a (by rw [hsl]; exact ha))
  have hmap_hl : u.host.data.map Char.toLower = u.host.data :=
    map_toLower_fixed _ f8
  have hhlne : u.host.data.length ≠ 0 := by
    intro h0
    exact f5 (List.length_eq_zero.mp h0)
  have hpdall0 : ∀ a ∈ '/' :: pdt, pathChar a = true := by
    intro a ha
    exact f11 a (hpsub a (by rw [hpd]; exact ha))
  have hpdsp0 : ∀ a ∈ '/' :: pdt, isSpaceChar a = false := by
    intro a ha
    exact hpws a (hpsub a (by rw [hpd]; exact ha))
  have hpdall : ∀ a ∈ '/' :: pdt.map Char.toLower, pathChar a = true := by
    intro a ha
    rcases List.mem_cons.mp ha with rfl | ha2
    · decide
    · rcases List.mem_map.mp ha2 with ⟨b, hb, rfl⟩
      rw [pathChar_toLower]
      exact hpdall0 b (List.mem_cons_of_mem _ hb)
  have hpdsp : ∀ a ∈ '/' :: pdt.map Char.toLower, isSpaceChar a = false := by
    intro a ha
    rcases List.mem_cons.mp ha with rfl | ha2
    · decide
    · rcases List.mem_map.mp ha2 with ⟨b, hb, rfl⟩
      rw [isSpaceChar_toLower]
      exact hpdsp0 b (List.mem_cons_of_mem _ hb)
  have hnd : (normalizeParsed u).data
      = c0 :: (slr ++ ':' :: '/' :: '/' :: (u.host.data ++ '/' :: pdt.map Char.toLower)) := by
    show ((u.scheme ++ ":" ++ "//" ++ u.host ++ stripPathSlash u.pathname ++
        (if joinParams (filterParams (parseQuery u.query)) = "" then ""
         else "?" ++ joinParams (filterParams (parseQuery u.query)))).data).map Char.toLower
      = _
    rw [if_pos hqe]
    simp only [data_append, List.map_append]
    rw [hsl, hpd, hmap_sl, hmap_hl]
    simp only [List.map_cons, List.map_nil,
      show Char.toLower ':' = ':' from by decide,
      show Char.toLower '/' = '/' from by decide]
    simp only [List.append_assoc, List.cons_append, List.singleton_append,
      List.nil_append, List.append_nil]
  have hc0sp : isSpaceChar c0 = false := by
    unfold isSpaceChar
    rw [decide_eq_false (by omega), decide_eq_false (by omega),
      decide_eq_false (by omega), decide_eq_false (by omega)]
    rfl
  have htrimdata : trimChars (normalizeParsed u).data = (normalizeParsed u).data := by
    apply trimChars_eq_self
    · intro a ha
      rw [hnd] at ha
      rw [show (c0 :: (slr ++ ':' :: '/' :: '/' ::
          (u.host.data ++ '/' :: pdt.map Char.toLower))).head? = some c0 from rfl] at ha
      injection ha with ha2
      rw [← ha2]
      exact hc0sp
    · intro a ha
      rw [hnd] at ha
      rw [getLast_cons_right c0 _ (by simp)] at ha
      rw [getLast_append_right slr _ (by simp)] at ha
      rw [getLast_cons_right ':' _ (by simp)] at ha
      rw [getLast_cons_right '/' _ (by simp)] at ha
      rw [getLast_cons_right '/' _ (by simp)] at ha
      rw [getLast_append_right u.host.data _ (by simp)] at ha
      exact hpdsp a (mem_of_getLast _ _ ha)
  have htrim : jsTrim (normalizeParsed u) = normalizeParsed u := by
    unfold jsTrim
    rw [htrimdata, mk_data]
  have hlow : (normalizeParsed u).data.map Char.toLower = (normalizeParsed u).data := by
    show (((u.scheme ++ ":" ++ "//" ++ u.host ++ stripPathSlash u.pathname ++
        (if joinParams (filterParams (parseQuery u.query)) = "" then ""
         else "?" ++ joinParams (filterParams (parseQuery u.query)))).data).map
          Char.toLower).map Char.toLower = _
    exact map_toLower_idem _
  unfold parseURL
  rw [htrim]
  unfold parseCore
  rw [hlow, hnd]
  rw [parseShape_build_noq c0 slr u.host.data (pdt.map Char.toLower)
    hc0 hslall hhlne f7 f6 hpdall]
  rw [Option.map_some']
  have htake_s : (c0 :: (slr ++ ':' :: '/' :: '/' ::
      (u.host.data ++ '/' :: pdt.map Char.toLower))).take (c0 :: slr).length
      = c0 :: slr := by
    rw [List.length_cons, List.take_succ_cons, List.take_left]
  have hdrop3 : (c0 :: (slr ++ ':' :: '/' :: '/' ::
      (u.host.data ++ '/' :: pdt.map Char.toLower))).drop ((c0 :: slr).length + 3)
      = u.host.data ++ '/' :: pdt.map Char.toLower := by
    rw [show c0 :: (slr ++ ':' :: '/' :: '/' ::
        (u.host.data ++ '/' :: pdt.map Char.toLower))
      = (c0 :: slr ++ [':', '/', '/']) ++ (u.host.data ++ '/' :: pdt.map Char.toLower)
      from by simp]
    rw [show (c0 :: slr).length + 3 = (c0 :: slr ++ [':', '/', '/']).length from by
      simp only [List.length_append, List.length_cons, List.length_nil]]
    exact List.drop_left ..
  have hdrop4 : (c0 :: (slr ++ ':' :: '/' :: '/' ::
      (u.host.data ++ '/' :: pdt.map Char.toLower))).drop
      ((c0 :: slr).length + 3 + u.host.data.length)
      = '/' :: pdt.map Char.toLower := by
    rw [show c0 :: (slr ++ ':' :: '/' :: '/' ::
        (u.host.data ++ '/' :: pdt.map Char.toLower))
      = (c0 :: slr ++ [':', '/', '/'] ++ u.host.data) ++ '/' :: pdt.map Char.toLower
      from by simp]
    rw [show (c0 :: slr).length + 3 + u.host.data.length
        = (c0 :: slr ++ [':', '/', '/'] ++ u.host.data).length from by
      simp only [List.length_append, List.length_cons, List.length_nil]]
    exact List.drop_left ..
  have hpath_eq : jsToLower (stripPathSlash u.pathname)
      = String.mk ('/' :: pdt.map Char.toLower) := by
    show String.mk ((stripPathSlash u.pathname).data.map Char.toLower) = _
    rw [hpd, List.map_cons, show Char.toLower '/' = '/' from by decide]
  simp only [buildURL]
  rw [htake_s, hdrop3, List.take_left, hdrop4, List.length_cons, List.take_succ_cons,
    List.take_length]
  rw [if_neg (by simp)]
  rw [← hsl, mk_data, mk_data, ← hpath_eq, hqe]
  rfl

/-- Reparsing a reassembled well-formed URL whose filtered query is not
empty succeeds and yields the lowercased slash-stripped components. -/
theorem reparse_q (u : URLObj) (h : wellFormedURL u = true)
    (hpws : ∀ a ∈ u.pathname.data, isSpaceChar a = false)
    (hqws : ∀ a ∈ u.query.data, isSpaceChar a = false)
    (hqne : ¬ joinParams (filterParams (parseQuery u.query)) = "") :
    parseURL (normalizeParsed u) = some
      { scheme := u.scheme, host := u.host,
        pathname := jsToLower (stripPathSlash u.pathname),
        query := jsToLower (joinParams (filterParams (parseQuery u.query))) } := by
  obtain ⟨f1, f2, f3, f4, f5, f6, f7, f8, f9, f10, f11, f12⟩ := wf_facts u h
  obtain ⟨hpne, hphead, hpsub⟩ := stripPathSlash_facts u.pathname f9 f10
  cases hsl : u.scheme.data with
  | nil => exact absurd hsl f1
  | cons c0 slr =>
  cases hpd : (stripPathSlash u.pathname).data with
  | nil => exact absurd hpd hpne
  | cons p0 pdt =>
  have hp0 : p0 = '/' := by
    rw [hpd] at hphead
    simpa using hphead
  subst hp0
  have hrange : 97 ≤ c0.toNat ∧ c0.toNat ≤ 122 := by
    rw [hsl] at f2
    simpa using f2
  have hc0 : (97 ≤ c0.toNat && c0.toNat ≤ 122) = true := by
    rw [Bool.and_eq_true]
    exact ⟨decide_eq_true hrange.1, decide_eq_true hrange.2⟩
  have hslall : ∀ a ∈ c0 :: slr, schemeRestChar a = true :=
    fun a ha => f3 a (by rw [hsl]; exact ha)
  have hmap_sl : (c0 :: slr).map Char.toLower = c0 :: slr :=
    map_toLower_fixed _ (fun a ha => f4 a (by rw [hsl]; exact ha))
  have hmap_hl : u.host.data.map Char.toLower = u.host.data :=
    map_toLower_fixed _ f8
  have hhlne : u.host.data.length ≠ 0 := by
    intro h0
    exact f5 (List.length_eq_zero.mp h0)
  have hpdall0 : ∀ a ∈ '/' :: pdt, pathChar a = true := by
    intro a ha
    exact f11 a (hpsub a (by rw [hpd]; exact ha))
  have hpdsp0 : ∀ a ∈ '/' :: pdt, isSpaceChar a = false := by
    intro a ha
    exact hpws a (hpsub a (by rw [hpd]; exact ha))
  have hpdall : ∀ a ∈ '/' :: pdt.map Char.toLower, pathChar a = true := by
    intro a ha
    rcases List.mem_cons.mp ha with rfl | ha2
    · decide
    · rcases List.mem_map.mp ha2 with ⟨b, hb, rfl⟩
      rw [pathChar_toLower]
      exact hpdall0 b (List.mem_cons_of_mem _ hb)
  have hpdsp : ∀ a ∈ '/' :: pdt.map Char.toLower, isSpaceChar a = false := by
    intro a ha
    rcases List.mem_cons.mp ha with rfl | ha2
    · decide
    · rcases List.mem_map.mp ha2 with ⟨b, hb, rfl⟩
      rw [isSpaceChar_toLower]
      exact hpdsp0 b (List.mem_cons_of_mem _ hb)
  have hqprop : ∀ a ∈ joinParamChars (filterParams (parseQuery u.query)),
      (¬ a.toNat = 35) ∧ isSpaceChar a = false := by
    intro a ha
    rcases joinParamChars_mem _ a ha with rfl | rfl | ⟨kv, hkv, hav⟩
    · exact ⟨by decide, by decide⟩
    · exact ⟨by decide, by decide⟩
    · have hkvq : kv ∈ parseQuery u.query := List.mem_of_mem_filter hkv
      obtain ⟨hnp, hsub1, hsub2⟩ := parseQuery_mem_props u.query kv hkvq
      have haq : a ∈ u.query.data := by
        rcases hav with h1 | h1
        · exact hsub1 a h1
        · exact hsub2 a h1
      exact ⟨f12 a haq, hqws a haq⟩
  have hqdne : joinParamChars (filterParams (parseQuery u.query)) ≠ [] := by
    intro h0
    apply hqne
    unfold joinParams
    rw [h0]
  have hqd35 : ∀ a ∈ (joinParamChars (filterParams (parseQuery u.query))).map Char.toLower,
      (!(a.toNat = 35)) = true := by
    intro a ha
    rcases List.mem_map.mp ha with ⟨b, hb, rfl⟩
    rw [Bool.not_eq_true', decide_eq_false_iff_not]
    intro h35
    exact (hqprop b hb).1 ((toLower_toNat_eq_iff b 35 (by omega)).mp h35)
  have hqdsp : ∀ a ∈ (joinParamChars (filterParams (parseQuery u.query))).map Char.toLower,
      isSpaceChar a = false := by
    intro a ha
    rcases List.mem_map.mp ha with ⟨b, hb, rfl⟩
    rw [isSpaceChar_toLower]
    exact (hqprop b hb).2
  have hqd_ne : (joinParamChars (filterParams (parseQuery u.query))).map Char.toLower ≠ [] := by
    cases hq0 : joinParamChars (filterParams (parseQuery u.query)) with
    | nil => exact absurd hq0 hqdne
    | cons x xs => simp
  have hnd : (normalizeParsed u).data
      = c0 :: (slr ++ ':' :: '/' :: '/' :: (u.host.data ++ '/' ::
        (pdt.map Char.toLower ++ '?' ::
          (joinParamChars (filterParams (parseQuery u.query))).map Char.toLower))) := by
    show ((u.scheme ++ ":" ++ "//" ++ u.host ++ stripPathSlash u.pathname ++
        (if joinParams (filterParams (parseQuery u.query)) = "" then ""
         else "?" ++ joinParams (filterParams (parseQuery u.query)))).data).map Char.toLower
      = _
    rw [if_neg hqne]
    simp only [data_append, List.map_append]
    rw [joinParams_data, hsl, hpd, hmap_sl, hmap_hl]
    simp only [List.map_cons, List.map_nil,
      show Char.toLower ':' = ':' from by decide,
      show Char.toLower '/' = '/' from by decide,
      show Char.toLower '?' = '?' from by decide]
    simp only [List.append_assoc, List.cons_append, List.singleton_append,
      List.nil_append, List.append_nil]
  have hc0sp : isSpaceChar c0 = false := by
    unfold isSpaceChar
    rw [decide_eq_false (by omega), decide_eq_false (by omega),
      decide_eq_false (by omega), decide_eq_false (by omega)]
    rfl
  have htrimdata : trimChars (normalizeParsed u).data = (normalizeParsed u).data := by
    apply trimChars_eq_self
    · intro a ha
      rw [hnd] at ha
      rw [show (c0 :: (slr ++ ':' :: '/' :: '/' :: (u.host.data ++ '/' ::
          (pdt.map Char.toLower ++ '?' ::
            (joinParamChars (filterParams (parseQuery u.query))).map
              Char.toLower)))).head? = some c0 from rfl] at ha
      injection ha with ha2
      rw [← ha2]
      exact hc0sp
    · intro a ha
      rw [hnd] at ha
      rw [getLast_cons_right c0 _ (by simp)] at ha
      rw [getLast_append_right slr _ (by simp)] at ha
      rw [getLast_cons_right ':' _ (by simp)] at ha
      rw [getLast_cons_right '/' _ (by simp)] at ha
      rw [getLast_cons_right '/' _ (by simp)] at ha
      rw [getLast_append_right u.host.data _ (by simp)] at ha
      rw [getLast_cons_right '/' _ (by simp)] at ha
      rw [getLast_append_right (pdt.map Char.toLower) _ (by simp)] at ha
      rw [getLast_cons_right '?' _ hqd_ne] at ha
      exact hqdsp a (mem_of_getLast _ _ ha)
  have htrim : jsTrim (normalizeParsed u) = normalizeParsed u := by
    unfold jsTrim
    rw [htrimdata, mk_data]
  have hlow : (normalizeParsed u).data.map Char.toLower = (normalizeParsed u).data := by
    show (((u.scheme ++ ":" ++ "//" ++ u.host ++ stripPathSlash u.pathname ++
        (if joinParams (filterParams (parseQuery u.query)) = "" then ""
         else "?" ++ joinParams (filterParams (parseQuery u.query)))).data).map
          Char.toLower).map Char.toLower = _
    exact map_toLower_idem _
  unfold parseURL
  rw [htrim]
  unfold parseCore
  rw [hlow, hnd]
  rw [parseShape_build_q c0 slr u.host.data (pdt.map Char.toLower)
    ((joinParamChars (filterParams (parseQuery u.query))).map Char.toLower)
    hc0 hslall hhlne f7 f6 hpdall hqd35]
  rw [Option.map_some']
  have htake_s : (c0 :: (slr ++ ':' :: '/' :: '/' :: (u.host.data ++ '/' ::
      (pdt.map Char.toLower ++ '?' ::
        (joinParamChars (filterParams (parseQuery u.query))).map Char.toLower)))).take
      (c0 :: slr).length = c0 :: slr := by
    rw [List.length_cons, List.take_succ_cons, List.take_left]
  have hdrop3 : (c0 :: (slr ++ ':' :: '/' :: '/' :: (u.host.data ++ '/' ::
      (pdt.map Char.toLower ++ '?' ::
        (joinParamChars (filterParams (parseQuery u.query))).map Char.toLower)))).drop
      ((c0 :: slr).length + 3)
      = u.host.data ++ '/' :: (pdt.map Char.toLower ++ '?' ::
        (joinParamChars (filterParams (parseQuery u.query))).map Char.toLower) := by
    rw [show c0 :: (slr ++ ':' :: '/' :: '/' :: (u.host.data ++ '/' ::
        (pdt.map Char.toLower ++ '?' ::
          (joinParamChars (filterParams (parseQuery u.query))).map Char.toLower)))
      = (c0 :: slr ++ [':', '/', '/']) ++ (u.host.data ++ '/' ::
        (pdt.map Char.toLower ++ '?' ::
          (joinParamChars (filterParams (parseQuery u.query))).map Char.toLower))
      from by simp]
    rw [show (c0 :: slr).length + 3 = (c0 :: slr ++ [':', '/', '/']).length from by
      simp only [List.length_append, List.length_cons, List.length_nil]]
    exact List.drop_left ..
  have hdrop4 : (c0 :: (slr ++ ':' :: '/' :: '/' :: (u.host.data ++ '/' ::
      (pdt.map Char.toLower ++ '?' ::
        (joinParamChars (filterParams (parseQuery u.query))).map Char.toLower)))).drop
      ((c0 :: slr).length + 3 + u.host.data.length)
      = '/' :: (pdt.map Char.toLower ++ '?' ::
        (joinParamChars (filterParams (parseQuery u.query))).map Char.toLower) := by
    rw [show c0 :: (slr ++ ':' :: '/' :: '/' :: (u.host.data ++ '/' ::
        (pdt.map Char.toLower ++ '?' ::
          (joinParamChars (filterParams (parseQuery u.query))).map Char.toLower)))
      = (c0 :: slr ++ [':', '/', '/'] ++ u.host.data) ++ '/' ::
        (pdt.map Char.toLower ++ '?' ::
          (joinParamChars (filterParams (parseQuery u.query))).map Char.toLower)
      from by simp]
    rw [show (c0 :: slr).length + 3 + u.host.data.length
        = (c0 :: slr ++ [':', '/', '/'] ++ u.host.data).length from by
      simp only [List.length_append, List.length_cons, List.length_nil]]
    exact List.drop_left ..
  have hdrop5 : (c0 :: (slr ++ ':' :: '/' :: '/' :: (u.host.data ++ '/' ::
      (pdt.map Char.toLower ++ '?' ::
        (joinParamChars (filterParams (parseQuery u.query))).map Char.toLower)))).drop
      ((c0 :: slr).length + 3 + u.host.data.length
        + ('/' :: pdt.map Char.toLower).length + 1)
      = (joinParamChars (filterParams (parseQuery u.query))).map Char.toLower := by
    rw [show c0 :: (slr ++ ':' :: '/' :: '/' :: (u.host.data ++ '/' ::
        (pdt.map Char.toLower ++ '?' ::
          (joinParamChars (filterParams (parseQuery u.query))).map Char.toLower)))
      = (c0 :: slr ++ [':', '/', '/'] ++ u.host.data ++ '/' :: pdt.map Char.toLower
          ++ ['?'])
        ++ (joinParamChars (filterParams (parseQuery u.query))).map Char.toLower
      from by simp]
    rw [show (c0 :: slr).length + 3 + u.host.data.length
          + ('/' :: pdt.map Char.toLower).length + 1
        = (c0 :: slr ++ [':', '/', '/'] ++ u.host.data ++ '/' :: pdt.map Char.toLower
          ++ ['?']).length from by
      simp only [List.length_append, List.length_cons, List.length_nil]]
    exact List.drop_left ..
  have hpath_eq : jsToLower (stripPathSlash u.pathname)
      = String.mk ('/' :: pdt.map Char.toLower) := by
    show String.mk ((stripPathSlash u.pathname).data.map Char.toLower) = _
    rw [hpd, List.map_cons, show Char.toLower '/' = '/' from by decide]
  have hq_eq : jsToLower (joinParams (filterParams (parseQuery u.query)))
      = String.mk ((joinParamChars (filterParams (parseQuery u.query))).map
          Char.toLower) := rfl
  simp only [buildURL]
  rw [htake_s, hdrop3, List.take_left, hdrop4, hdrop5, List.take_length,
    List.length_cons, List.take_succ_cons, List.take_left]
  rw [if_neg (by simp)]
  rw [← hsl, mk_data, mk_data, ← hpath_eq, ← hq_eq]

/-- Reassembling the reparsed components gives the same normalized
string, provided a second slash strip does not shorten the path
further. -/
theorem normalizeParsed_reparse (u : URLObj)
    (hstrip : stripPathSlash (stripPathSlash u.pathname) = stripPathSlash u.pathname) :
    normalizeParsed
      { scheme := u.scheme, host := u.host,
        pathname := jsToLower (stripPathSlash u.pathname),
        query := jsToLower (joinParams (filterParams (parseQuery u.query))) }
      = normalizeParsed u := by
  have hpath : stripPathSlash (jsToLower (stripPathSlash u.pathname))
      = jsToLower (stripPathSlash u.pathname) := by
    rw [stripPathSlash_jsToLower, hstrip]
  have hconds : ∀ kv ∈ (filterParams (parseQuery u.query)).map
      (fun kv => (jsToLower kv.1, jsToLower kv.2)),
      ('&' : Char) ∉ kv.1.data ∧ ('=' : Char) ∉ kv.1.data
        ∧ ('&' : Char) ∉ kv.2.data := by
    intro kv hkv
    rcases List.mem_map.mp hkv with ⟨kv0, hkv0, rfl⟩
    obtain ⟨⟨ha1, ha2, ha3⟩, _, _⟩ :=
      parseQuery_mem_props u.query kv0 (List.mem_of_mem_filter hkv0)
    refine ⟨?_, ?_, ?_⟩
    · show ('&' : Char) ∉ kv0.1.data.map Char.toLower
      intro hmem
      rcases List.mem_map.mp hmem with ⟨b, hb, hbe⟩
      exact ha1 (((toLower_eq_symbol_iff b '&' (by decide)).mp hbe) ▸ hb)
    · show ('=' : Char) ∉ kv0.1.data.map Char.toLower
      intro hmem
      rcases List.mem_map.mp hmem with ⟨b, hb, hbe⟩
      exact ha2 (((toLower_eq_symbol_iff b '=' (by decide)).mp hbe) ▸ hb)
    · show ('&' : Char) ∉ kv0.2.data.map Char.toLower
      intro hmem
      rcases List.mem_map.mp hmem with ⟨b, hb, hbe⟩
      exact ha3 (((toLower_eq_symbol_iff b '&' (by decide)).mp hbe) ▸ hb)
  have hqsim : joinParams (filterParams (parseQuery
      (jsToLower (joinParams (filterParams (parseQuery u.query))))))
      = jsToLower (joinParams (filterParams (parseQuery u.query))) := by
    rw [jsToLower_joinParams, parseQuery_joinParams _ hconds,
      filterParams_map_lower, ← jsToLower_joinParams]
  rw [String.ext_iff]
  show ((u.scheme ++ ":" ++ "//" ++ u.host
      ++ stripPathSlash (jsToLower (stripPathSlash u.pathname))
      ++ (if joinParams (filterParams (parseQuery
            (jsToLower (joinParams (filterParams (parseQuery u.query)))))) = ""
          then ""
          else "?" ++ joinParams (filterParams (parseQuery
            (jsToLower (joinParams (filterParams (parseQuery u.query)))))))).data).map
        Char.toLower
    = ((u.scheme ++ ":" ++ "//" ++ u.host ++ stripPathSlash u.pathname
      ++ (if joinParams (filterParams (parseQuery u.query)) = "" then ""
          else "?" ++ joinParams (filterParams (parseQuery u.query)))).data).map
        Char.toLower
  rw [hpath, hqsim]
  have hjd : (jsToLower (stripPathSlash u.pathname)).data
      = (stripPathSlash u.pathname).data.map Char.toLower := rfl
  have hjq : (jsToLower (joinParams (filterParams (parseQuery u.query)))).data
      = (joinParams (filterParams (parseQuery u.query))).data.map Char.toLower := rfl
  by_cases hqe : joinParams (filterParams (parseQuery u.query)) = ""
  · rw [if_pos hqe, if_pos (by rw [hqe]; rfl)]
    simp only [data_append, List.map_append]
    rw [hjd, map_toLower_idem]
  · rw [if_neg hqe,
      if_neg (fun he => hqe ((jsToLower_eq_empty_iff _).mp he))]
    simp only [data_append, List.map_append]
    rw [hjd, map_toLower_idem, hjq, map_toLower_idem]

/-- Idempotence of normalizeUrl on the successful-parse branch, under the
stability conditions on the parsed components. -/
theorem normalizeUrl_idem_parsed (s : String) (u : URLObj)
    (hps : parseURL s = some u)
    (hstrip : stripPathSlash (stripPathSlash u.pathname) = stripPathSlash u.pathname)
    (hws : (u.pathname.data ++ u.query.data).all (fun c => !(isSpaceChar c)) = true) :
    normalizeUrl (normalizeUrl s) = normalizeUrl s := by
  have hwf : wellFormedURL u = true :=
    parseCore_wellFormed _ u (by unfold parseURL at hps; exact hps)
  have hws2 : ∀ a ∈ u.pathname.data ++ u.query.data, isSpaceChar a = false := by
    intro a ha
    have h2 := List.all_eq_true.mp hws a ha
    rwa [Bool.not_eq_true'] at h2
  have hpws : ∀ a ∈ u.pathname.data, isSpaceChar a = false :=
    fun a ha => hws2 a (List.mem_append_left _ ha)
  have hqws : ∀ a ∈ u.query.data, isSpaceChar a = false :=
    fun a ha => hws2 a (List.mem_append_right _ ha)
  have hsne : s ≠ "" := by
    intro h0
    rw [h0] at hps
    rw [show parseURL "" = none from rfl] at hps
    cases hps
  have hn1 : normalizeUrl s = normalizeParsed u := by
    unfold normalizeUrl
    rw [if_neg hsne, hps]
  have hrp : parseURL (normalizeParsed u) = some
      { scheme := u.scheme, host := u.host,
        pathname := jsToLower (stripPathSlash u.pathname),
        query := jsToLower (joinParams (filterParams (parseQuery u.query))) } := by
    by_cases hqe : joinParams (filterParams (parseQuery u.query)) = ""
    · exact reparse_noq u hwf hpws hqe
    · exact reparse_q u hwf hpws hqws hqe
  have hnne : normalizeParsed u ≠ "" := by
    intro h0
    rw [h0] at hrp
    rw [show parseURL "" = none from rfl] at hrp
    cases hrp
  have hn2 : normalizeUrl (normalizeParsed u) = normalizeParsed u := by
    unfold normalizeUrl
    rw [if_neg hnne, hrp]
    exact normalizeParsed_reparse u hstrip
  rw [hn1]
  exact hn2

/-- Idempotence of normalizeUrl on the fallback branch, when the trimmed
lowercased input does not end in a slash. -/
theorem normalizeUrl_idem_fallback (s : String)
    (hps : parseURL s = none)
    (hslash : ¬ (jsToLower (jsTrim s)).data.getLast? = some '/') :
    normalizeUrl (normalizeUrl s) = normalizeUrl s := by
  by_cases hse : s = ""
  · rw [hse]
    decide
  · obtain ⟨hfb, htr, hlo⟩ := fallback_trim_lower s hslash
    have hn1 : normalizeUrl s = jsToLower (jsTrim s) := by
      unfold normalizeUrl
      rw [if_neg hse, hps]
      exact hfb
    by_cases hte : jsToLower (jsTrim s) = ""
    · rw [hn1, hte]
      decide
    · have hps2 : parseURL (jsToLower (jsTrim s)) = none := parseURL_fallback_none s hps
      have hfb2 : fallbackNormalize (jsToLower (jsTrim s)) = jsToLower (jsTrim s) := by
        unfold fallbackNormalize
        rw [htr, hlo]
        unfold stripSlashChars
        rw [if_neg hslash, mk_data]
      rw [hn1]
      unfold normalizeUrl
      rw [if_neg hte, hps2]
      exact hfb2

/-- C8 counterexample: the normalizer is not idempotent as claimed; a
fallback input ending in two slashes loses one slash per pass. -/
theorem c8_counterexample :
    ¬ (normalizeUrl (normalizeUrl "a//") = normalizeUrl "a//") := by decide

/-- C8 (amended): normalizeUrl is idempotent on every parsed URL whose
slash-stripped path is stable under a second strip and whose path and
query carry no white space, and on every unparsable input whose trimmed
lowercased form does not end in a slash; the original unconditional claim
fails (see the counterexample). -/
theorem c8_normalize_conditionally_idempotent :
    (∀ (s : String) (u : URLObj), parseURL s = some u →
      stripPathSlash (stripPathSlash u.pathname) = stripPathSlash u.pathname →
      (u.pathname.data ++ u.query.data).all (fun c => !(isSpaceChar c)) = true →
      normalizeUrl (normalizeUrl s) = normalizeUrl s)
    ∧ (∀ s : String, parseURL s = none →
      ¬ (jsToLower (jsTrim s)).data.getLast? = some '/' →
      normalizeUrl (normalizeUrl s) = normalizeUrl s) :=
  ⟨normalizeUrl_idem_parsed, normalizeUrl_idem_fallback⟩

/-- Witness: both branches of the amended C8 theorem applied at concrete
inputs. -/
theorem c8_normalize_conditionally_idempotent_witness :
    normalizeUrl (normalizeUrl "http://ex.com/a?b=c") = normalizeUrl "http://ex.com/a?b=c"
    ∧ normalizeUrl (normalizeUrl "a b") = normalizeUrl "a b" :=
  ⟨c8_normalize_conditionally_idempotent.1 "http://ex.com/a?b=c"
      { scheme := "http", host := "ex.com", pathname := "/a", query := "b=c" }
      (by decide) (by decide) (by decide),
    c8_normalize_conditionally_idempotent.2 "a b" (by decide) (by decide)⟩

end BidLink
